import Mathlib

/-!
# goflux type generator: the TypeScript emitter and the used-type collector

A shallow embedding of `cli/internal/typegen/generator/typescript.go`.

* Go strings are finite byte sequences (`GoString`); string literals of the
  source are written `lit "..."`.
* Slice expressions `s[lo:]` and `s[lo:hi]` are fallible (`Option`): `none`
  stands for the run-time panic of an out-of-range slice.
* Offsets are of type `Int`: every offset the program computes is at most the length
  of a string plus 8, so the 64-bit `int` of Go never wraps.
* The map `usedTypes` is a duplicate-free list of keys; the order in which
  `range` visits the keys is a parameter (`MapOrder`), since Go leaves it
  unspecified.
* `sort.Slice` is a parameter too (`SliceSorter`): any procedure returning a
  permutation of its input that is ordered by `Name`.
* The field-name processor (`processor.ProcessFieldName`) is a parameter
  `P : GoString → GoString`.
-/

namespace GoFlux

/-! ## Strings -/

/-- One byte of a Go string. -/
abbrev Byte := Fin 256

/-- Go `string`: an immutable sequence of bytes. -/
abbrev GoString := List Byte

/-- UTF-8 encoding of one character, as Go stores string literals. -/
def utf8 (c : Char) : List Byte :=
  let n := c.toNat
  if n < 0x80 then [Fin.ofNat n]
  else if n < 0x800 then [Fin.ofNat (0xC0 + n / 64), Fin.ofNat (0x80 + n % 64)]
  else if n < 0x10000 then
    [Fin.ofNat (0xE0 + n / 4096), Fin.ofNat (0x80 + n / 64 % 64), Fin.ofNat (0x80 + n % 64)]
  else
    [Fin.ofNat (0xF0 + n / 262144), Fin.ofNat (0x80 + n / 4096 % 64),
     Fin.ofNat (0x80 + n / 64 % 64), Fin.ofNat (0x80 + n % 64)]

/-- The bytes of a string literal of the source. -/
def lit (s : String) : GoString :=
  (s.toList.map utf8).flatten

/-- Go's `<` on strings: byte-wise lexicographic order, a proper prefix being smaller. -/
def strLess : GoString → GoString → Bool
  | _, [] => false
  | [], _ :: _ => true
  | a :: as, b :: bs => if a < b then true else if b < a then false else strLess as bs

/-- The slice expression `s[lo:]`; `none` is the out-of-range panic. -/
def sliceFrom (s : GoString) (lo : Int) : Option GoString :=
  if 0 ≤ lo ∧ lo ≤ (s.length : Int) then some (s.drop lo.toNat) else none

/-- The slice expression `s[lo:hi]`; `none` is the out-of-range panic. -/
def slice (s : GoString) (lo hi : Int) : Option GoString :=
  if 0 ≤ lo ∧ lo ≤ hi ∧ hi ≤ (s.length : Int) then some ((s.take hi.toNat).drop lo.toNat)
  else none

namespace strings

/-- Scan for the first occurrence of `substr`, `i` being the offset of the text left. -/
def indexAux (substr : GoString) : GoString → Nat → Int
  | [], i => if substr = [] then (i : Int) else -1
  | c :: cs, i => if substr.isPrefixOf (c :: cs) then (i : Int) else indexAux substr cs (i + 1)

/-- The function `strings.Index`: offset of the first occurrence of `substr` in `s`, or `-1`. -/
def Index (s substr : GoString) : Int :=
  indexAux substr s 0

/-- The function `strings.Contains`. -/
def Contains (s substr : GoString) : Bool :=
  decide (Index s substr ≥ 0)

/-- The function `strings.HasSuffix`. -/
def HasSuffix (s suffix : GoString) : Bool :=
  suffix.isSuffixOf s

/-- The function `strings.TrimSuffix`: `s` without the given trailing suffix, or `s` itself. -/
def TrimSuffix (s suffix : GoString) : GoString :=
  if HasSuffix s suffix then s.take (s.length - suffix.length) else s

/-- The function `strings.Join`: the elements with `sep` written between neighbours. -/
def Join : List GoString → GoString → GoString
  | [], _ => []
  | [e], _ => e
  | e :: es, sep => es.foldl (fun b s => b ++ sep ++ s) e

end strings

namespace fmt

/-- The function `fmt.Sprintf` for formats whose only verb is `%s` and string operands:
each `%s` is replaced by the next operand, every other byte is copied. -/
def Sprintf : GoString → List GoString → GoString
  | [], _ => []
  | [c], _ => [c]
  | c :: d :: rest, args =>
    if c = 37 ∧ d = 115 then
      match args with
      | a :: args' => a ++ Sprintf rest args'
      | [] => lit "%!s(MISSING)" ++ Sprintf rest []
    else c :: Sprintf (d :: rest) args

end fmt

namespace filepath

/-- The function `filepath.Join` on clean, non-empty elements, with `/` as separator. -/
def Join (elems : List GoString) : GoString :=
  List.intercalate (lit "/") elems

end filepath

/-! ## Data model (package `types`) -/

/-- Modelled from the spec: the struct `types.Field` (its declaration is outside the
generator package); one member of a struct definition. -/
structure Field where
  Name : GoString
  JSONTag : GoString
  TypeName : GoString
  Optional : Bool
deriving DecidableEq, Repr

/-- Modelled from the spec: the struct `types.TypeDefinition`; one struct or enum. -/
structure TypeDefinition where
  Name : GoString
  IsEnum : Bool
  EnumValues : List GoString
  Fields : List Field
deriving DecidableEq, Repr

/-- Modelled from the spec: the struct `types.APIRoute`, restricted to the two members
the collector reads. -/
structure APIRoute where
  RequestType : GoString
  ResponseType : GoString
deriving DecidableEq, Repr

/-! ## Library procedures with unspecified choices -/

/-- An iteration order of `range` over a Go map: every key is visited exactly once,
in an order the language does not fix. -/
structure MapOrder where
  range : List GoString → List GoString
  perm : ∀ keys, (range keys).Perm keys

/-- The iteration order that visits keys oldest first. -/
def MapOrder.insertion : MapOrder :=
  ⟨fun keys => keys, fun _ => List.Perm.refl _⟩

/-- The iteration order that visits keys newest first. -/
def MapOrder.reversed : MapOrder :=
  ⟨fun keys => keys.reverse, fun keys => List.reverse_perm keys⟩

/-- A behaviour of `sort.Slice(typeDefs, less)` with `less` comparing `Name`:
the slice is rearranged in place into an order where no element is followed by one of
smaller `Name`. The sort is not stable, so nothing more is fixed. -/
structure SliceSorter where
  sort : List TypeDefinition → List TypeDefinition
  perm : ∀ l, (sort l).Perm l
  ordered : ∀ l, (sort l).Pairwise (fun a b => strLess b.Name a.Name = false)

namespace sort

/-- Insert `x` before the first element that is greater under `less`. -/
def insertBy {α : Type} (less : α → α → Bool) (x : α) : List α → List α
  | [] => [x]
  | y :: ys => if less x y then x :: y :: ys else y :: insertBy less x ys

/-- Insertion sort under `less`, the procedure package `sort` runs on short slices. -/
def insertionSort {α : Type} (less : α → α → Bool) (l : List α) : List α :=
  l.foldr (insertBy less) []

/-- The function `sort.Strings`: the strings in increasing order. Equal strings are
indistinguishable, so the result does not depend on the sorting algorithm. -/
def Strings (l : List GoString) : List GoString :=
  insertionSort strLess l

end sort

/-! ## The map `usedTypes` -/

/-- The statement `usedTypes[k] = true` on a map all of whose values are `true`. -/
def mapSet (usedTypes : List GoString) (k : GoString) : List GoString :=
  if k ∈ usedTypes then usedTypes else usedTypes ++ [k]

/-! ## collectUsedTypes -/

/-- The branch on `route.RequestType` (taken when it is non-empty). -/
def requestTypeStep (usedTypes : List GoString) (requestType : GoString) :
    Option (List GoString) :=
  if strings.Contains requestType (lit "Omit<") then do
    let start := strings.Index requestType (lit "Omit<") + 5
    let tail ← sliceFrom requestType start
    let end_ := strings.Index tail (lit ",")
    if end_ > 0 then do
      let name ← slice requestType start (start + end_)
      pure (mapSet usedTypes name)
    else pure usedTypes
  else if strings.Contains requestType (lit "Partial<") then do
    let start := strings.Index requestType (lit "Partial<") + 8
    let tail ← sliceFrom requestType start
    let end_ := strings.Index tail (lit ">")
    if end_ > 0 then do
      let name ← slice requestType start (start + end_)
      pure (mapSet usedTypes name)
    else pure usedTypes
  else pure (mapSet usedTypes requestType)

/-- The branch on `route.ResponseType` (taken when it is non-empty). -/
def responseTypeStep (usedTypes : List GoString) (responseType : GoString) : List GoString :=
  let responseType :=
    if strings.TrimSuffix responseType (lit "[]") ≠ responseType then
      strings.TrimSuffix responseType (lit "[]")
    else responseType
  mapSet usedTypes responseType

/-- The body of the loop over `routes`. -/
def routeStep (usedTypes : List GoString) (route : APIRoute) : Option (List GoString) := do
  let usedTypes ←
    if route.RequestType ≠ [] then requestTypeStep usedTypes route.RequestType
    else pure usedTypes
  if route.ResponseType ≠ [] then pure (responseTypeStep usedTypes route.ResponseType)
  else pure usedTypes

/-- The loop `for _, route := range routes`. -/
def routesLoop : List APIRoute → List GoString → Option (List GoString)
  | [], usedTypes => some usedTypes
  | route :: rest, usedTypes =>
    match routeStep usedTypes route with
    | none => none
    | some usedTypes' => routesLoop rest usedTypes'

/-- The inner loop over `typeDefs`: append `typeName` at the first definition of that
name and stop. -/
def appendIfDefined (typeName : GoString) : List TypeDefinition → List GoString → List GoString
  | [], typeNames => typeNames
  | t :: ts, typeNames =>
    if t.Name = typeName then typeNames ++ [typeName] else appendIfDefined typeName ts typeNames

/-- The loop `for typeName := range usedTypes`, over the keys in visiting order. -/
def filterLoop (typeDefs : List TypeDefinition) : List GoString → List GoString → List GoString
  | [], typeNames => typeNames
  | typeName :: rest, typeNames =>
    filterLoop typeDefs rest (appendIfDefined typeName typeDefs typeNames)

/-- The function `collectUsedTypes`; `none` is a run-time panic. -/
def collectUsedTypes (o : MapOrder) (routes : List APIRoute) (typeDefs : List TypeDefinition) :
    Option (List GoString) :=
  match routesLoop routes [] with
  | none => none
  | some usedTypes => some (sort.Strings (filterLoop typeDefs (o.range usedTypes) []))

/-! ## GenerateTypeScriptTypes -/

/-- The body of the loop over `t.Fields`, appending one member line to the builder. -/
def emitField (P : GoString → GoString) (content : GoString) (field : Field) : GoString :=
  let fieldName := field.JSONTag
  let fieldName := if fieldName = [] then P field.Name else P fieldName
  let optional := if field.Optional then lit "?" else lit ""
  content ++ fmt.Sprintf (lit "  %s%s: %s\n") [fieldName, optional, field.TypeName]

/-- The body of the loop over `typeDefs`, appending one declaration to the builder. -/
def emitType (P : GoString → GoString) (content : GoString) (t : TypeDefinition) : GoString :=
  if t.IsEnum then
    content ++ fmt.Sprintf (lit "export type %s = %s\n\n")
      [t.Name, strings.Join t.EnumValues (lit " | ")]
  else
    let content := content ++ fmt.Sprintf (lit "export interface %s \x7b\n") [t.Name]
    let content := t.Fields.foldl (emitField P) content
    content ++ lit "\x7d\n\n"

/-- The builder after the three banner writes. -/
def banner : GoString :=
  (([] ++ lit "// Auto-generated TypeScript types from Go structs\n")
    ++ lit "// Generated by GoFlux type generation system\n")
    ++ lit "// Do not edit manually\n\n"

/-- The text of the builder after the loop over the (already sorted) slice. -/
def buildContent (P : GoString → GoString) (typeDefs : List TypeDefinition) : GoString :=
  typeDefs.foldl (emitType P) banner

/-- An error of the operating system. -/
structure OSError where
  msg : GoString
deriving DecidableEq, Repr

/-- The two file-system calls of the generator; `none` is success. -/
structure FileSystem where
  MkdirAll : GoString → Option OSError
  WriteFile : GoString → GoString → Option OSError

/-- The wrapped errors `GenerateTypeScriptTypes` returns. -/
inductive GenError where
  | createDir (cause : OSError)
  | writeFile (cause : OSError)
deriving DecidableEq, Repr

/-- What a call of `GenerateTypeScriptTypes` leaves behind. -/
structure GenOutcome where
  /-- The caller's slice after the call. -/
  typeDefs : List TypeDefinition
  /-- Every `os.WriteFile` call made: path and data. -/
  writes : List (GoString × GoString)
  /-- The returned error, `none` for `nil`. -/
  err : Option GenError

/-- The function `GenerateTypeScriptTypes`. -/
def GenerateTypeScriptTypes (fs : FileSystem) (s : SliceSorter) (P : GoString → GoString)
    (typeDefs : List TypeDefinition) : GenOutcome :=
  let typesDir := filepath.Join [lit "frontend", lit "src", lit "types"]
  match fs.MkdirAll typesDir with
  | some e => ⟨typeDefs, [], some (GenError.createDir e)⟩
  | none =>
    let typeDefs := s.sort typeDefs
    let content := buildContent P typeDefs
    let typesFile := filepath.Join [typesDir, lit "generated.d.ts"]
    match fs.WriteFile typesFile content with
    | some e => ⟨typeDefs, [(typesFile, content)], some (GenError.writeFile e)⟩
    | none => ⟨typeDefs, [(typesFile, content)], none⟩

/-- The document `GenerateTypeScriptTypes` builds in `content`. -/
def document (s : SliceSorter) (P : GoString → GoString) (typeDefs : List TypeDefinition) :
    GoString :=
  buildContent P (s.sort typeDefs)

/-- The function `ShouldGenerateTypeScriptTypes`. -/
def ShouldGenerateTypeScriptTypes (generatorType : GoString) : Bool :=
  if generatorType = lit "basic" then false
  else if generatorType = lit "basic-ts" ∨ generatorType = lit "axios"
      ∨ generatorType = lit "trpc-like" then true
  else true

/-! ## Auxiliary notions for the proofs -/

/-- Offset of the first occurrence of `substr` in `s`, if there is one. -/
def firstOcc (substr : GoString) : GoString → Option Nat
  | [] => if substr = [] then some 0 else none
  | c :: cs => if substr.isPrefixOf (c :: cs) then some 0 else (firstOcc substr cs).map (· + 1)

/-- Whether some definition of the list has the given name. -/
def isDefined (typeDefs : List TypeDefinition) (name : GoString) : Bool :=
  typeDefs.any (fun t => decide (t.Name = name))

/-- The declaration written for `t`: what the loop body adds to an empty builder. -/
def declText (P : GoString → GoString) (t : TypeDefinition) : GoString :=
  emitType P [] t

/-- The member line written for `field`: what the loop body adds to an empty builder. -/
def fieldLine (P : GoString → GoString) (field : Field) : GoString :=
  emitField P [] field

/-- The shared shape of the two wrapper branches of `requestTypeStep`: the name is the
text between the first `marker` (of length `n`) and the first `delim` after it. -/
def wrapperStep (usedTypes : List GoString) (requestType marker delim : GoString) (n : Int) :
    Option (List GoString) := do
  let start := strings.Index requestType marker + n
  let tail ← sliceFrom requestType start
  let end_ := strings.Index tail delim
  if end_ > 0 then do
    let name ← slice requestType start (start + end_)
    pure (mapSet usedTypes name)
  else pure usedTypes

/-- A definition with only a name. -/
def emptyStruct (name : String) : TypeDefinition :=
  ⟨lit name, false, [], []⟩

/-- The enum `Status` with the values `active`, `paused`, `done`. -/
def statusEnum : TypeDefinition :=
  ⟨lit "Status", true, [lit "active", lit "paused", lit "done"], []⟩

/-- The field `UserId` with the key `user_id`. -/
def userIdField : Field :=
  ⟨lit "UserId", lit "user_id", lit "number", false⟩

/-- The struct `User` with the single optional field `Email` of type `string`. -/
def userStruct : TypeDefinition :=
  ⟨lit "User", false, [], [⟨lit "Email", [], lit "string", true⟩]⟩

/-- A file system on which both calls succeed. -/
def FileSystem.ok : FileSystem :=
  ⟨fun _ => none, fun _ _ => none⟩

/-- A file system on which no directory can be created. -/
def FileSystem.noDir : FileSystem :=
  ⟨fun _ => some ⟨lit "permission denied"⟩, fun _ _ => none⟩

/-- A file system on which directories can be created and no file can be written. -/
def FileSystem.noWrite : FileSystem :=
  ⟨fun _ => none, fun _ _ => some ⟨lit "disk full"⟩⟩

/-- The keys one route adds to an empty map. -/
def routeKeys (route : APIRoute) : List GoString :=
  (routeStep [] route).getD []

/-! ## The order on strings -/

theorem strLess_irrefl (a : GoString) : strLess a a = false := by
  induction a with
  | nil => rfl
  | cons x xs ih => simp [strLess, ih]

theorem strLess_asymm : ∀ (a b : GoString), strLess a b = true → strLess b a = false
  | _, [], h => by simp [strLess] at h
  | [], _ :: _, _ => by simp [strLess]
  | x :: xs, y :: ys, h => by
    simp only [strLess] at h ⊢
    rcases lt_trichotomy x y with hxy | hxy | hxy
    · simp [hxy, not_lt_of_lt hxy]
    · subst hxy
      simp only [lt_irrefl, if_false] at h ⊢
      exact strLess_asymm xs ys h
    · simp [hxy, not_lt_of_lt hxy] at h

theorem strLess_trans : ∀ (a b c : GoString), strLess a b = true → strLess b c = true →
    strLess a c = true
  | _, [], _, h, _ => by simp [strLess] at h
  | _, _ :: _, [], _, h => by simp [strLess] at h
  | [], _ :: _, _ :: _, _, _ => by simp [strLess]
  | x :: xs, y :: ys, z :: zs, h1, h2 => by
    simp only [strLess] at h1 h2 ⊢
    rcases lt_trichotomy x y with hxy | hxy | hxy
    · rcases lt_trichotomy y z with hyz | hyz | hyz
      · simp [lt_trans hxy hyz]
      · subst hyz; simp [hxy]
      · simp [hyz, not_lt_of_lt hyz] at h2
    · subst hxy
      simp only [lt_irrefl, if_false] at h1
      rcases lt_trichotomy x z with hyz | hyz | hyz
      · simp [hyz]
      · subst hyz
        simp only [lt_irrefl, if_false] at h2 ⊢
        exact strLess_trans xs ys zs h1 h2
      · simp [hyz, not_lt_of_lt hyz] at h2
    · simp [hxy, not_lt_of_lt hxy] at h1

theorem strLess_connex : ∀ (a b : GoString), strLess a b = false → strLess b a = false → a = b
  | [], [], _, _ => rfl
  | [], _ :: _, h, _ => by simp [strLess] at h
  | _ :: _, [], _, h => by simp [strLess] at h
  | x :: xs, y :: ys, h1, h2 => by
    simp only [strLess] at h1 h2
    rcases lt_trichotomy x y with hxy | hxy | hxy
    · simp [hxy] at h1
    · subst hxy
      simp only [lt_irrefl, if_false] at h1 h2
      rw [strLess_connex xs ys h1 h2]
    · simp [hxy] at h2

/-! ## Insertion sort -/

theorem mem_insertBy {α : Type} (less : α → α → Bool) (x b : α) (l : List α) :
    b ∈ sort.insertBy less x l ↔ b = x ∨ b ∈ l := by
  induction l with
  | nil => simp [sort.insertBy]
  | cons y ys ih =>
    unfold sort.insertBy
    split
    · simp
    · simp only [List.mem_cons, ih]
      tauto

theorem perm_insertBy {α : Type} (less : α → α → Bool) (x : α) (l : List α) :
    (sort.insertBy less x l).Perm (x :: l) := by
  induction l with
  | nil => simp [sort.insertBy]
  | cons y ys ih =>
    unfold sort.insertBy
    split
    · exact List.Perm.refl _
    · exact (List.Perm.cons y ih).trans (List.Perm.swap x y ys)

theorem perm_insertionSort {α : Type} (less : α → α → Bool) (l : List α) :
    (sort.insertionSort less l).Perm l := by
  induction l with
  | nil => exact List.Perm.refl _
  | cons x xs ih =>
    exact (perm_insertBy less x (sort.insertionSort less xs)).trans (List.Perm.cons x ih)

theorem ordered_insertBy {α : Type} (less : α → α → Bool)
    (hasym : ∀ a b, less a b = true → less b a = false)
    (htrans : ∀ a b c, less a b = true → less b c = true → less a c = true)
    (x : α) (l : List α) (hl : l.Pairwise (fun a b => less b a = false)) :
    (sort.insertBy less x l).Pairwise (fun a b => less b a = false) := by
  induction l with
  | nil => simp [sort.insertBy]
  | cons y ys ih =>
    rw [List.pairwise_cons] at hl
    unfold sort.insertBy
    split
    · rename_i hxy
      refine List.pairwise_cons.2 ⟨?_, List.pairwise_cons.2 hl⟩
      intro b hb
      rcases List.mem_cons.1 hb with rfl | hb
      · exact hasym _ _ hxy
      · cases hbx : less b x with
        | false => rfl
        | true =>
          have hby := htrans b x y hbx hxy
          rw [hl.1 b hb] at hby
          exact absurd hby (by simp)
    · rename_i hxy
      refine List.pairwise_cons.2 ⟨?_, ih hl.2⟩
      intro b hb
      rcases (mem_insertBy less x b ys).1 hb with rfl | hb
      · simpa using hxy
      · exact hl.1 b hb

theorem ordered_insertionSort {α : Type} (less : α → α → Bool)
    (hasym : ∀ a b, less a b = true → less b a = false)
    (htrans : ∀ a b c, less a b = true → less b c = true → less a c = true)
    (l : List α) : (sort.insertionSort less l).Pairwise (fun a b => less b a = false) := by
  induction l with
  | nil => exact List.Pairwise.nil
  | cons x xs ih => exact ordered_insertBy less hasym htrans x _ ih

/-- Insertion sort by `Name` is one of the behaviours of `sort.Slice`. -/
def SliceSorter.insertion : SliceSorter where
  sort := sort.insertionSort (fun a b => strLess a.Name b.Name)
  perm := perm_insertionSort _
  ordered := ordered_insertionSort _ (fun a b => strLess_asymm a.Name b.Name)
    (fun a b c => strLess_trans a.Name b.Name c.Name)

theorem strings_perm (l : List GoString) : (sort.Strings l).Perm l :=
  perm_insertionSort strLess l

theorem strings_ascending (l : List GoString) (hl : l.Nodup) :
    (sort.Strings l).Pairwise (fun a b => strLess a b = true) := by
  have h1 : (sort.Strings l).Pairwise (fun a b => strLess b a = false) :=
    ordered_insertionSort strLess strLess_asymm strLess_trans l
  have h2 : (sort.Strings l).Pairwise (fun a b => a ≠ b) := (strings_perm l).nodup_iff.2 hl
  refine (h1.and h2).imp ?_
  intro a b hab
  cases h : strLess a b with
  | true => rfl
  | false => exact absurd (strLess_connex a b h hab.1) hab.2

/-! ## Searching and slicing -/

theorem indexAux_eq (substr s : GoString) (i : Nat) :
    strings.indexAux substr s i =
      match firstOcc substr s with
      | none => -1
      | some k => ((i + k : Nat) : Int) := by
  induction s generalizing i with
  | nil => unfold strings.indexAux firstOcc; split <;> simp
  | cons c cs ih =>
    unfold strings.indexAux firstOcc
    split
    · simp
    · rw [ih]
      cases firstOcc substr cs with
      | none => simp
      | some k => simp only [Option.map_some']; push_cast; ring

theorem index_of_none (substr s : GoString) (h : firstOcc substr s = none) :
    strings.Index s substr = -1 := by
  unfold strings.Index; rw [indexAux_eq, h]

theorem index_of_some (substr s : GoString) (k : Nat) (h : firstOcc substr s = some k) :
    strings.Index s substr = (k : Int) := by
  unfold strings.Index; rw [indexAux_eq, h]; simp

theorem contains_iff (substr s : GoString) :
    strings.Contains s substr = true ↔ ∃ k, firstOcc substr s = some k := by
  unfold strings.Contains
  cases h : firstOcc substr s with
  | none => rw [index_of_none _ _ h]; simp
  | some k => rw [index_of_some _ _ k h]; simp

theorem contains_false_iff (substr s : GoString) :
    strings.Contains s substr = false ↔ firstOcc substr s = none := by
  cases h : firstOcc substr s with
  | none =>
    simp only [iff_true]
    cases hc : strings.Contains s substr with
    | false => rfl
    | true => obtain ⟨k, hk⟩ := (contains_iff substr s).1 hc; rw [h] at hk; cases hk
  | some k =>
    have hc := (contains_iff substr s).2 ⟨k, h⟩
    simp [hc]

theorem firstOcc_cons (substr : GoString) (c : Byte) (cs : GoString) :
    firstOcc substr (c :: cs) =
      if substr.isPrefixOf (c :: cs) then some 0 else (firstOcc substr cs).map (· + 1) := rfl

theorem firstOcc_bound (substr : GoString) :
    ∀ (s : GoString) (k : Nat), firstOcc substr s = some k → k + substr.length ≤ s.length
  | [], k, h => by
    unfold firstOcc at h
    split at h
    · rename_i hs; cases h; simp [hs]
    · cases h
  | c :: cs, k, h => by
    unfold firstOcc at h
    split at h
    · rename_i hp
      cases h
      have := (List.isPrefixOf_iff_prefix.1 hp).length_le
      simpa using this
    · cases hk : firstOcc substr cs with
      | none => rw [hk] at h; cases h
      | some j =>
        rw [hk] at h
        cases h
        have := firstOcc_bound substr cs j hk
        simp only [List.length_cons]
        omega

theorem firstOcc_at_start (substr rest : GoString) : firstOcc substr (substr ++ rest) = some 0 := by
  cases h : substr ++ rest with
  | nil =>
    have h1 : substr = [] := (List.append_eq_nil.1 h).1
    simp [firstOcc, h1]
  | cons c cs =>
    have hp : substr.isPrefixOf (c :: cs) = true := by
      rw [← h]; exact List.isPrefixOf_iff_prefix.2 (List.prefix_append _ _)
    simp [firstOcc, hp]

theorem firstOcc_byte (d : Byte) (rest : GoString) :
    ∀ (b : GoString), d ∉ b → firstOcc [d] (b ++ d :: rest) = some b.length
  | [], _ => by simp [firstOcc, List.isPrefixOf]
  | x :: xs, h => by
    have hx : ¬ d = x := fun e => h (by simp [e])
    have hxs : d ∉ xs := fun e => h (by simp [e])
    have ih := firstOcc_byte d rest xs hxs
    simp [firstOcc, List.isPrefixOf, hx, ih]

theorem sliceFrom_ok (s : GoString) (k : Nat) (h : k ≤ s.length) :
    sliceFrom s (k : Int) = some (s.drop k) := by
  unfold sliceFrom
  rw [if_pos ⟨by omega, by omega⟩]
  simp

theorem slice_ok (s : GoString) (lo hi : Nat) (h1 : lo ≤ hi) (h2 : hi ≤ s.length) :
    slice s (lo : Int) (hi : Int) = some ((s.take hi).drop lo) := by
  unfold slice
  rw [if_pos ⟨by omega, by omega, by omega⟩]
  simp

/-! ## The wrapper branches -/

theorem requestTypeStep_eq (usedTypes : List GoString) (requestType : GoString) :
    requestTypeStep usedTypes requestType =
      if strings.Contains requestType (lit "Omit<") then
        wrapperStep usedTypes requestType (lit "Omit<") (lit ",") 5
      else if strings.Contains requestType (lit "Partial<") then
        wrapperStep usedTypes requestType (lit "Partial<") (lit ">") 8
      else some (mapSet usedTypes requestType) := rfl

theorem wrapperStep_some (usedTypes : List GoString) (requestType marker delim : GoString)
    (k : Nat) (hk : firstOcc marker requestType = some k) :
    wrapperStep usedTypes requestType marker delim (marker.length : Int) =
      match firstOcc delim (requestType.drop (k + marker.length)) with
      | none => some usedTypes
      | some 0 => some usedTypes
      | some (e + 1) =>
        some (mapSet usedTypes
          ((requestType.take (k + marker.length + (e + 1))).drop (k + marker.length))) := by
  have hb := firstOcc_bound marker requestType k hk
  unfold wrapperStep
  rw [index_of_some _ _ k hk]
  have hstart : ((k : Int) + (marker.length : Int)) = ((k + marker.length : Nat) : Int) := by
    simp
  dsimp only
  rw [hstart, sliceFrom_ok _ _ hb]
  simp only [Option.bind_eq_bind, Option.some_bind]
  cases he : firstOcc delim (requestType.drop (k + marker.length)) with
  | none => rw [index_of_none _ _ he]; simp
  | some e =>
    rw [index_of_some _ _ e he]
    cases e with
    | zero => simp
    | succ e =>
      have hb2 := firstOcc_bound delim _ _ he
      simp only [List.length_drop] at hb2
      have hpos : ((e + 1 : Nat) : Int) > 0 := by omega
      rw [if_pos hpos]
      have hend : ((k + marker.length : Nat) : Int) + ((e + 1 : Nat) : Int) =
          ((k + marker.length + (e + 1) : Nat) : Int) := by simp
      rw [hend, slice_ok _ _ _ (by omega) (by omega)]
      simp

theorem wrapperStep_total (usedTypes : List GoString) (requestType marker delim : GoString)
    (hc : strings.Contains requestType marker = true) :
    ∃ m, wrapperStep usedTypes requestType marker delim (marker.length : Int) = some m ∧
      (m = usedTypes ∨ ∃ name, m = mapSet usedTypes name) := by
  obtain ⟨k, hk⟩ := (contains_iff marker requestType).1 hc
  rw [wrapperStep_some _ _ _ _ k hk]
  cases firstOcc delim (requestType.drop (k + marker.length)) with
  | none => exact ⟨_, rfl, Or.inl rfl⟩
  | some e =>
    cases e with
    | zero => exact ⟨_, rfl, Or.inl rfl⟩
    | succ e => exact ⟨_, rfl, Or.inr ⟨_, rfl⟩⟩

theorem wrapperStep_extract (usedTypes : List GoString) (marker base rest : GoString) (d : Byte)
    (hbase : base ≠ []) (hd : d ∉ base) :
    wrapperStep usedTypes (marker ++ (base ++ d :: rest)) marker [d] (marker.length : Int) =
      some (mapSet usedTypes base) := by
  rw [wrapperStep_some _ _ _ _ 0 (firstOcc_at_start marker _)]
  simp only [Nat.zero_add, List.drop_left, firstOcc_byte d rest base hd]
  cases base with
  | nil => exact absurd rfl hbase
  | cons b bs =>
    simp only [List.length_cons]
    have h1 : (marker ++ (b :: bs ++ d :: rest)).take (marker.length + (bs.length + 1)) =
        marker ++ (b :: bs) := by
      rw [← List.append_assoc]
      have hl : marker.length + (bs.length + 1) = (marker ++ b :: bs).length := by simp
      rw [hl, List.take_left]
    rw [h1, List.drop_left]

theorem requestTypeStep_total (usedTypes : List GoString) (requestType : GoString) :
    ∃ m, requestTypeStep usedTypes requestType = some m ∧
      (m = usedTypes ∨ ∃ name, m = mapSet usedTypes name) := by
  rw [requestTypeStep_eq]
  split
  · rename_i hc
    exact wrapperStep_total usedTypes requestType (lit "Omit<") (lit ",") hc
  · split
    · rename_i hc
      exact wrapperStep_total usedTypes requestType (lit "Partial<") (lit ">") hc
    · exact ⟨_, rfl, Or.inr ⟨_, rfl⟩⟩

/-! ## The map and the loop over the routes -/

theorem mem_mapSet (usedTypes : List GoString) (k x : GoString) :
    x ∈ mapSet usedTypes k ↔ x ∈ usedTypes ∨ x = k := by
  unfold mapSet
  split
  · rename_i h
    constructor
    · exact Or.inl
    · rintro (h1 | rfl)
      · exact h1
      · exact h
  · simp

theorem nodup_mapSet (usedTypes : List GoString) (k : GoString) (h : usedTypes.Nodup) :
    (mapSet usedTypes k).Nodup := by
  unfold mapSet
  split
  · exact h
  · rename_i hk
    exact List.nodup_append.2 ⟨h, List.nodup_singleton k, by
      intro a ha hb
      rw [List.mem_singleton] at hb
      exact hk (hb ▸ ha)⟩

theorem routeStep_eq (usedTypes : List GoString) (route : APIRoute) :
    routeStep usedTypes route =
      (if route.RequestType ≠ [] then requestTypeStep usedTypes route.RequestType
        else some usedTypes).bind
        (fun m => some (if route.ResponseType ≠ [] then responseTypeStep m route.ResponseType
          else m)) := by
  unfold routeStep
  by_cases h1 : route.RequestType = [] <;> by_cases h2 : route.ResponseType = []
  · simp [h1, h2]
  · simp [h1, h2]
  · simp only [ne_eq, h1, not_false_eq_true, if_true, h2, not_true_eq_false, if_false]
    cases requestTypeStep usedTypes route.RequestType <;> rfl
  · simp only [ne_eq, h1, not_false_eq_true, if_true, h2]
    cases requestTypeStep usedTypes route.RequestType <;> rfl

theorem routeStep_total (usedTypes : List GoString) (route : APIRoute) :
    ∃ m, routeStep usedTypes route = some m ∧ (∀ x ∈ usedTypes, x ∈ m) ∧
      (usedTypes.Nodup → m.Nodup) := by
  rw [routeStep_eq]
  have h1 : ∃ m1, (if route.RequestType ≠ [] then requestTypeStep usedTypes route.RequestType
      else some usedTypes) = some m1 ∧ (∀ x ∈ usedTypes, x ∈ m1) ∧
      (usedTypes.Nodup → m1.Nodup) := by
    split
    · obtain ⟨m1, hm1, hor⟩ := requestTypeStep_total usedTypes route.RequestType
      refine ⟨m1, hm1, ?_, ?_⟩
      · rcases hor with rfl | ⟨name, rfl⟩
        · exact fun x hx => hx
        · exact fun x hx => (mem_mapSet _ _ _).2 (Or.inl hx)
      · rcases hor with rfl | ⟨name, rfl⟩
        · exact fun h => h
        · exact nodup_mapSet _ _
    · exact ⟨usedTypes, rfl, fun x hx => hx, fun h => h⟩
  obtain ⟨m1, hm1, hsub, hnd⟩ := h1
  rw [hm1, Option.some_bind]
  refine ⟨_, rfl, ?_, ?_⟩
  · intro x hx
    split
    · exact (mem_mapSet _ _ _).2 (Or.inl (hsub x hx))
    · exact hsub x hx
  · intro h
    split
    · exact nodup_mapSet _ _ (hnd h)
    · exact hnd h

theorem routesLoop_total : ∀ (routes : List APIRoute) (usedTypes : List GoString),
    ∃ m, routesLoop routes usedTypes = some m ∧ (∀ x ∈ usedTypes, x ∈ m) ∧
      (usedTypes.Nodup → m.Nodup)
  | [], usedTypes => ⟨usedTypes, rfl, fun _ hx => hx, fun h => h⟩
  | route :: rest, usedTypes => by
    obtain ⟨m1, hm1, hsub1, hnd1⟩ := routeStep_total usedTypes route
    obtain ⟨m2, hm2, hsub2, hnd2⟩ := routesLoop_total rest m1
    refine ⟨m2, ?_, fun x hx => hsub2 x (hsub1 x hx), fun h => hnd2 (hnd1 h)⟩
    simp only [routesLoop, hm1, hm2]

theorem routesLoop_append : ∀ (pre rest : List APIRoute) (usedTypes : List GoString),
    routesLoop (pre ++ rest) usedTypes = (routesLoop pre usedTypes).bind (routesLoop rest)
  | [], _, _ => rfl
  | route :: pre, rest, usedTypes => by
    simp only [List.cons_append, routesLoop]
    cases routeStep usedTypes route with
    | none => rfl
    | some m => exact routesLoop_append pre rest m

theorem routesLoop_mem_of_step (route : APIRoute) (k : GoString)
    (hstep : ∀ m, ∃ m1, routeStep m route = some m1 ∧ k ∈ m1)
    (pre post : List APIRoute) (usedTypes : List GoString) :
    ∃ m, routesLoop (pre ++ route :: post) usedTypes = some m ∧ k ∈ m := by
  obtain ⟨m0, hm0, _, _⟩ := routesLoop_total pre usedTypes
  obtain ⟨m1, hm1, hk⟩ := hstep m0
  obtain ⟨m2, hm2, hsub, _⟩ := routesLoop_total post m1
  refine ⟨m2, ?_, hsub k hk⟩
  rw [routesLoop_append, hm0, Option.some_bind]
  simp only [routesLoop, hm1, hm2]

theorem routesLoop_congr (route route' : APIRoute)
    (hstep : ∀ m, routeStep m route = routeStep m route')
    (pre post : List APIRoute) (usedTypes : List GoString) :
    routesLoop (pre ++ route :: post) usedTypes = routesLoop (pre ++ route' :: post) usedTypes := by
  rw [routesLoop_append, routesLoop_append]
  congr 1
  funext m
  simp only [routesLoop, hstep m]

/-! ## The filter loop and the result -/

theorem isDefined_iff (typeDefs : List TypeDefinition) (name : GoString) :
    isDefined typeDefs name = true ↔ ∃ t ∈ typeDefs, t.Name = name := by
  simp [isDefined]

theorem appendIfDefined_eq (typeName : GoString) :
    ∀ (typeDefs : List TypeDefinition) (typeNames : List GoString),
      appendIfDefined typeName typeDefs typeNames =
        if isDefined typeDefs typeName then typeNames ++ [typeName] else typeNames
  | [], _ => by simp [appendIfDefined, isDefined]
  | t :: ts, typeNames => by
    unfold appendIfDefined
    by_cases h : t.Name = typeName
    · simp [h, isDefined]
    · rw [if_neg h, appendIfDefined_eq typeName ts typeNames]
      simp [isDefined, h]

theorem filterLoop_eq (typeDefs : List TypeDefinition) :
    ∀ (keys typeNames : List GoString),
      filterLoop typeDefs keys typeNames = typeNames ++ keys.filter (isDefined typeDefs)
  | [], typeNames => by simp [filterLoop]
  | k :: keys, typeNames => by
    unfold filterLoop
    rw [filterLoop_eq typeDefs keys, appendIfDefined_eq]
    by_cases h : isDefined typeDefs k = true
    · simp [h, List.filter_cons]
    · simp [h, List.filter_cons]

theorem collectUsedTypes_eq (o : MapOrder) (routes : List APIRoute)
    (typeDefs : List TypeDefinition) (m : List GoString) (hm : routesLoop routes [] = some m) :
    collectUsedTypes o routes typeDefs =
      some (sort.Strings ((o.range m).filter (isDefined typeDefs))) := by
  unfold collectUsedTypes
  rw [hm]
  simp only [filterLoop_eq, List.nil_append]

theorem mem_result (o : MapOrder) (typeDefs : List TypeDefinition) (m : List GoString)
    (name : GoString) :
    name ∈ sort.Strings ((o.range m).filter (isDefined typeDefs)) ↔
      name ∈ m ∧ ∃ t ∈ typeDefs, t.Name = name := by
  rw [(strings_perm _).mem_iff, List.mem_filter, (o.perm m).mem_iff, isDefined_iff]

theorem nodup_result (o : MapOrder) (typeDefs : List TypeDefinition) (m : List GoString)
    (hm : m.Nodup) : ((o.range m).filter (isDefined typeDefs)).Nodup :=
  ((o.perm m).nodup_iff.2 hm).filter _

/-! ## Particular request and response types -/

theorem not_mem_of_contains_false (d : Byte) :
    ∀ (b : GoString), strings.Contains b [d] = false → d ∉ b
  | [], _ => by simp
  | x :: xs, h => by
    rw [contains_false_iff] at h
    unfold firstOcc at h
    split at h
    · cases h
    · rename_i hp
      have hx : ¬ d = x := by
        intro e
        exact hp (by simp [List.isPrefixOf, e])
      have hxs : firstOcc [d] xs = none := by
        cases hf : firstOcc [d] xs with
        | none => rfl
        | some j => rw [hf] at h; cases h
      have ih := not_mem_of_contains_false d xs ((contains_false_iff _ _).2 hxs)
      simp only [List.mem_cons, not_or]
      exact ⟨hx, ih⟩

theorem firstOcc_skip_start (s0 : Byte) (ss rest : GoString) :
    ∀ (pre : GoString), s0 ∉ pre →
      firstOcc (s0 :: ss) (pre ++ rest) = (firstOcc (s0 :: ss) rest).map (· + pre.length)
  | [], _ => by simp
  | x :: xs, h => by
    have hx : ¬ s0 = x := fun e => h (by simp [e])
    have hxs : s0 ∉ xs := fun e => h (by simp [e])
    have ih := firstOcc_skip_start s0 ss rest xs hxs
    have hp : ¬ (s0 :: ss).isPrefixOf (x :: (xs ++ rest)) = true := by
      simp [List.isPrefixOf, hx]
    rw [List.cons_append, firstOcc_cons, if_neg hp, ih]
    cases firstOcc (s0 :: ss) rest with
    | none => rfl
    | some j => simp only [Option.map_some', List.length_cons]; congr 1

theorem firstOcc_snoc_none (substr : GoString) (c : Byte) (hne : substr ≠ [])
    (hlast : ∀ l, substr ≠ l ++ [c]) :
    ∀ (b : GoString), firstOcc substr b = none → firstOcc substr (b ++ [c]) = none
  | [], _ => by
    have hp : ¬ substr.isPrefixOf [c] = true := by
      intro hp
      rcases List.prefix_concat_iff.1 (List.isPrefixOf_iff_prefix.1 hp :
        substr <+: [] ++ [c]) with h1 | h1
      · exact hlast [] h1
      · exact hne (List.prefix_nil.1 h1)
    simp [firstOcc, hp, hne]
  | x :: xs, h => by
    unfold firstOcc at h
    split at h
    · cases h
    · rename_i hp
      have hxs : firstOcc substr xs = none := by
        cases hf : firstOcc substr xs with
        | none => rfl
        | some j => rw [hf] at h; cases h
      have ih := firstOcc_snoc_none substr c hne hlast xs hxs
      have hp2 : ¬ substr.isPrefixOf (x :: (xs ++ [c])) = true := by
        intro hq
        rcases List.prefix_concat_iff.1 (List.isPrefixOf_iff_prefix.1 hq :
          substr <+: (x :: xs) ++ [c]) with h1 | h1
        · exact hlast (x :: xs) h1
        · exact hp (List.isPrefixOf_iff_prefix.2 h1)
      rw [List.cons_append, firstOcc_cons, if_neg hp2, ih]
      rfl

theorem requestTypeStep_omit (usedTypes : List GoString) (base key : GoString)
    (hbase : base ≠ []) (hcomma : strings.Contains base (lit ",") = false) :
    requestTypeStep usedTypes (lit "Omit<" ++ base ++ lit ", '" ++ key ++ lit "'>") =
      some (mapSet usedTypes base) := by
  have hform : lit "Omit<" ++ base ++ lit ", '" ++ key ++ lit "'>" =
      lit "Omit<" ++ (base ++ 44 :: (lit " '" ++ key ++ lit "'>")) := by
    have h1 : lit ", '" = 44 :: lit " '" := by decide
    rw [h1]
    simp only [List.append_assoc, List.cons_append]
  have hc : strings.Contains (lit "Omit<" ++ (base ++ 44 :: (lit " '" ++ key ++ lit "'>")))
      (lit "Omit<") = true := (contains_iff _ _).2 ⟨0, firstOcc_at_start _ _⟩
  rw [hform, requestTypeStep_eq, if_pos hc]
  exact wrapperStep_extract usedTypes (lit "Omit<") base _ 44 hbase
    (not_mem_of_contains_false 44 base hcomma)

theorem requestTypeStep_partial (usedTypes : List GoString) (base : GoString)
    (hbase : base ≠ []) (hclose : strings.Contains base (lit ">") = false)
    (homit : strings.Contains base (lit "Omit<") = false) :
    requestTypeStep usedTypes (lit "Partial<" ++ base ++ lit ">") =
      some (mapSet usedTypes base) := by
  have hform : lit "Partial<" ++ base ++ lit ">" = lit "Partial<" ++ (base ++ 62 :: []) := by
    have h1 : lit ">" = [62] := by decide
    rw [h1, List.append_assoc]
  have hlast : ∀ l : GoString, lit "Omit<" ≠ l ++ [62] := by
    intro l hl
    have h2 := congrArg List.getLast? hl
    rw [List.getLast?_concat] at h2
    exact absurd h2 (by decide)
  have hno : strings.Contains (lit "Partial<" ++ (base ++ 62 :: [])) (lit "Omit<") = false := by
    rw [contains_false_iff]
    have h3 := firstOcc_snoc_none (lit "Omit<") 62 (by decide) hlast base
      ((contains_false_iff _ _).1 homit)
    have h4 := firstOcc_skip_start 79 (lit "mit<") (base ++ [62]) (lit "Partial<") (by decide)
    have h5 : lit "Omit<" = 79 :: lit "mit<" := by decide
    rw [h5] at h3 ⊢
    rw [h4, h3]
    rfl
  have hc : strings.Contains (lit "Partial<" ++ (base ++ 62 :: [])) (lit "Partial<") = true :=
    (contains_iff _ _).2 ⟨0, firstOcc_at_start _ _⟩
  rw [hform, requestTypeStep_eq, if_neg (by simp [hno]), if_pos hc]
  exact wrapperStep_extract usedTypes (lit "Partial<") base [] 62 hbase
    (not_mem_of_contains_false 62 base hclose)

theorem trimSuffix_append (b suffix : GoString) : strings.TrimSuffix (b ++ suffix) suffix = b := by
  unfold strings.TrimSuffix strings.HasSuffix
  rw [if_pos (List.isSuffixOf_iff_suffix.2 (List.suffix_append b suffix))]
  simp

theorem responseTypeStep_eq (usedTypes : List GoString) (responseType : GoString) :
    responseTypeStep usedTypes responseType =
      mapSet usedTypes (strings.TrimSuffix responseType (lit "[]")) := by
  unfold responseTypeStep
  by_cases h : strings.TrimSuffix responseType (lit "[]") = responseType
  · simp only [ne_eq, h, not_true_eq_false, if_false]
  · simp only [ne_eq, h, not_false_eq_true, if_true]

theorem routeStep_of_request (usedTypes : List GoString) (route : APIRoute) (k : GoString)
    (hne : route.RequestType ≠ [])
    (hreq : ∀ m, requestTypeStep m route.RequestType = some (mapSet m k)) :
    ∃ m1, routeStep usedTypes route = some m1 ∧ k ∈ m1 := by
  rw [routeStep_eq, if_pos hne, hreq, Option.some_bind]
  refine ⟨_, rfl, ?_⟩
  have hk : k ∈ mapSet usedTypes k := (mem_mapSet _ _ _).2 (Or.inr rfl)
  split
  · rw [responseTypeStep_eq]
    exact (mem_mapSet _ _ _).2 (Or.inl hk)
  · exact hk

theorem routeStep_of_response (usedTypes : List GoString) (route : APIRoute)
    (hne : route.ResponseType ≠ []) :
    ∃ m1, routeStep usedTypes route = some m1 ∧
      strings.TrimSuffix route.ResponseType (lit "[]") ∈ m1 := by
  obtain ⟨m1, hm1, _⟩ := routeStep_total usedTypes route
  refine ⟨m1, hm1, ?_⟩
  rw [routeStep_eq] at hm1
  cases h0 : (if route.RequestType ≠ [] then requestTypeStep usedTypes route.RequestType
      else some usedTypes) with
  | none => rw [h0] at hm1; cases hm1
  | some m0 =>
    rw [h0, Option.some_bind, if_pos hne, responseTypeStep_eq] at hm1
    cases hm1
    exact (mem_mapSet _ _ _).2 (Or.inr rfl)

theorem collectUsedTypes_mem (o : MapOrder) (routes : List APIRoute)
    (typeDefs : List TypeDefinition) (k : GoString)
    (hk : ∃ m, routesLoop routes [] = some m ∧ k ∈ m) (hdef : ∃ t ∈ typeDefs, t.Name = k) :
    ∃ res, collectUsedTypes o routes typeDefs = some res ∧ k ∈ res := by
  obtain ⟨m, hm, hkm⟩ := hk
  exact ⟨_, collectUsedTypes_eq o routes typeDefs m hm,
    (mem_result o typeDefs m k).2 ⟨hkm, hdef⟩⟩

theorem collectUsedTypes_single (o : MapOrder) (route : APIRoute)
    (typeDefs : List TypeDefinition) (k : GoString) (hstep : routeStep [] route = some [k])
    (hdef : ∃ t ∈ typeDefs, t.Name = k) :
    collectUsedTypes o [route] typeDefs = some [k] := by
  have hm : routesLoop [route] [] = some [k] := by simp only [routesLoop, hstep]
  rw [collectUsedTypes_eq o [route] typeDefs [k] hm, List.perm_singleton.1 (o.perm [k])]
  have hd : isDefined typeDefs k = true := (isDefined_iff typeDefs k).2 hdef
  simp [List.filter_cons, hd, sort.Strings, sort.insertionSort, sort.insertBy]

/-! ## Claims on collectUsedTypes -/

/-- C1: `collectUsedTypes` returns (it does not panic), and every name it returns is the
`Name` of a definition of `typeDefs`; a name no definition carries is not in the result. -/
theorem collectUsedTypes_names_defined (o : MapOrder) (routes : List APIRoute)
    (typeDefs : List TypeDefinition) :
    ∃ res, collectUsedTypes o routes typeDefs = some res ∧
      (∀ name ∈ res, ∃ t ∈ typeDefs, t.Name = name) ∧
      (∀ name, (∀ t ∈ typeDefs, t.Name ≠ name) → name ∉ res) := by
  obtain ⟨m, hm, _, _⟩ := routesLoop_total routes []
  refine ⟨_, collectUsedTypes_eq o routes typeDefs m hm, ?_, ?_⟩
  · intro name hname
    exact ((mem_result o typeDefs m name).1 hname).2
  · intro name hno hname
    obtain ⟨t, ht, hn⟩ := ((mem_result o typeDefs m name).1 hname).2
    exact hno t ht hn

/-- C2: the result of `collectUsedTypes` is strictly ascending in the byte-wise
lexicographic order of Go strings, hence sorted and without repetition, whatever
routes and definitions (repeated references and repeated names included) it is given. -/
theorem collectUsedTypes_strictly_ascending (o : MapOrder) (routes : List APIRoute)
    (typeDefs : List TypeDefinition) :
    ∃ res, collectUsedTypes o routes typeDefs = some res ∧
      res.Pairwise (fun a b => strLess a b = true) ∧ res.Nodup := by
  obtain ⟨m, hm, _, hnd⟩ := routesLoop_total routes []
  have hnd1 := nodup_result o typeDefs m (hnd List.nodup_nil)
  exact ⟨_, collectUsedTypes_eq o routes typeDefs m hm, strings_ascending _ hnd1,
    (strings_perm _).nodup_iff.2 hnd1⟩

/-- C3: a route whose `RequestType` is `Omit<B, 'k'>`, with `B` non-empty and free of
commas, makes `collectUsedTypes` return a list containing `B` when `B` is defined, whatever
the other routes are; and the key `k` has no influence on the result. -/
theorem collectUsedTypes_omit_wrapper (o : MapOrder) (base key responseType : GoString)
    (pre post : List APIRoute) (typeDefs : List TypeDefinition)
    (hbase : base ≠ []) (hcomma : strings.Contains base (lit ",") = false)
    (hdef : ∃ t ∈ typeDefs, t.Name = base) :
    (∃ res, collectUsedTypes o
        (pre ++ ⟨lit "Omit<" ++ base ++ lit ", '" ++ key ++ lit "'>", responseType⟩ :: post)
        typeDefs = some res ∧ base ∈ res) ∧
    ∀ key' : GoString,
      collectUsedTypes o
        (pre ++ ⟨lit "Omit<" ++ base ++ lit ", '" ++ key' ++ lit "'>", responseType⟩ :: post)
        typeDefs =
      collectUsedTypes o
        (pre ++ ⟨lit "Omit<" ++ base ++ lit ", '" ++ key ++ lit "'>", responseType⟩ :: post)
        typeDefs := by
  constructor
  · apply collectUsedTypes_mem o _ typeDefs base _ hdef
    apply routesLoop_mem_of_step
    intro m
    exact routeStep_of_request m _ base (by simp [lit, utf8])
      (fun m0 => requestTypeStep_omit m0 base key hbase hcomma)
  · intro key'
    unfold collectUsedTypes
    rw [routesLoop_congr _ ⟨lit "Omit<" ++ base ++ lit ", '" ++ key ++ lit "'>", responseType⟩]
    intro m
    have h1 : lit "Omit<" ++ base ++ lit ", '" ++ key' ++ lit "'>" ≠ [] := by simp [lit, utf8]
    have h2 : lit "Omit<" ++ base ++ lit ", '" ++ key ++ lit "'>" ≠ [] := by simp [lit, utf8]
    rw [routeStep_eq, routeStep_eq]
    simp only [if_pos h1, if_pos h2, requestTypeStep_omit _ base _ hbase hcomma]

/-- C3 at `Omit<User, 'id'>` with a definition named `User`: the result is `["User"]`, and
another key gives the same result. -/
theorem collectUsedTypes_omit_wrapper_witness :
    (∃ res, collectUsedTypes MapOrder.insertion
        ([] ++ ⟨lit "Omit<" ++ lit "User" ++ lit ", '" ++ lit "id" ++ lit "'>", []⟩ :: [])
        [emptyStruct "User"] = some res ∧ lit "User" ∈ res) ∧
    ∀ key' : GoString,
      collectUsedTypes MapOrder.insertion
        ([] ++ ⟨lit "Omit<" ++ lit "User" ++ lit ", '" ++ key' ++ lit "'>", []⟩ :: [])
        [emptyStruct "User"] =
      collectUsedTypes MapOrder.insertion
        ([] ++ ⟨lit "Omit<" ++ lit "User" ++ lit ", '" ++ lit "id" ++ lit "'>", []⟩ :: [])
        [emptyStruct "User"] :=
  collectUsedTypes_omit_wrapper MapOrder.insertion (lit "User") (lit "id") [] [] []
    [emptyStruct "User"] (by decide) (by decide) ⟨emptyStruct "User", by simp, rfl⟩

/-- C4: a route whose `RequestType` is `Partial<B>`, with `B` non-empty, free of `>` and
not containing `Omit<`, makes `collectUsedTypes` return a list containing `B` when `B` is
defined, whatever the other routes are. -/
theorem collectUsedTypes_partial_wrapper (o : MapOrder) (base responseType : GoString)
    (pre post : List APIRoute) (typeDefs : List TypeDefinition)
    (hbase : base ≠ []) (hclose : strings.Contains base (lit ">") = false)
    (homit : strings.Contains base (lit "Omit<") = false)
    (hdef : ∃ t ∈ typeDefs, t.Name = base) :
    ∃ res, collectUsedTypes o
        (pre ++ ⟨lit "Partial<" ++ base ++ lit ">", responseType⟩ :: post) typeDefs = some res ∧
      base ∈ res := by
  apply collectUsedTypes_mem o _ typeDefs base _ hdef
  apply routesLoop_mem_of_step
  intro m
  exact routeStep_of_request m _ base (by simp [lit, utf8])
    (fun m0 => requestTypeStep_partial m0 base hbase hclose homit)

/-- C4 at `Partial<User>` with a definition named `User`. -/
theorem collectUsedTypes_partial_wrapper_witness :
    ∃ res, collectUsedTypes MapOrder.insertion
        ([] ++ ⟨lit "Partial<" ++ lit "User" ++ lit ">", []⟩ :: []) [emptyStruct "User"] =
          some res ∧
      lit "User" ∈ res :=
  collectUsedTypes_partial_wrapper MapOrder.insertion (lit "User") [] [] []
    [emptyStruct "User"] (by decide) (by decide) (by decide) ⟨emptyStruct "User", by simp, rfl⟩

/-- C5: a route whose `ResponseType` is `B[]` makes `collectUsedTypes` return a list
containing `B` when `B` is defined, whatever the other routes are; alone, that route
yields exactly `[B]` (one trailing `[]` is removed, also when `B` itself ends in `[]`);
and a non-empty `ResponseType` without the suffix is used as it is. -/
theorem collectUsedTypes_array_suffix (o : MapOrder) (base requestType : GoString)
    (pre post : List APIRoute) (typeDefs : List TypeDefinition)
    (hdef : ∃ t ∈ typeDefs, t.Name = base) :
    (∃ res, collectUsedTypes o (pre ++ ⟨requestType, base ++ lit "[]"⟩ :: post) typeDefs =
        some res ∧ base ∈ res) ∧
    collectUsedTypes o [⟨[], base ++ lit "[]"⟩] typeDefs = some [base] ∧
    (∀ plain : GoString, plain ≠ [] → strings.HasSuffix plain (lit "[]") = false →
      (∃ t ∈ typeDefs, t.Name = plain) →
      collectUsedTypes o [⟨[], plain⟩] typeDefs = some [plain]) := by
  have hne : base ++ lit "[]" ≠ [] := by simp [lit, utf8]
  refine ⟨?_, ?_, ?_⟩
  · apply collectUsedTypes_mem o _ typeDefs base _ hdef
    apply routesLoop_mem_of_step
    intro m
    have h := routeStep_of_response m ⟨requestType, base ++ lit "[]"⟩ hne
    rw [trimSuffix_append] at h
    exact h
  · apply collectUsedTypes_single o _ typeDefs base _ hdef
    rw [routeStep_eq]
    simp only [ne_eq, not_true_eq_false, if_false, Option.some_bind, hne, not_false_eq_true,
      if_true, responseTypeStep_eq, trimSuffix_append]
    rfl
  · intro plain hplain hsuffix hd
    apply collectUsedTypes_single o _ typeDefs plain _ hd
    rw [routeStep_eq]
    simp only [ne_eq, not_true_eq_false, if_false, Option.some_bind, hplain, not_false_eq_true,
      if_true, responseTypeStep_eq]
    unfold strings.TrimSuffix
    rw [hsuffix]
    rfl

/-- C5 at `User[]` with a definition named `User`. -/
theorem collectUsedTypes_array_suffix_witness :
    (∃ res, collectUsedTypes MapOrder.insertion ([] ++ ⟨[], lit "User" ++ lit "[]"⟩ :: [])
        [emptyStruct "User"] = some res ∧ lit "User" ∈ res) ∧
    collectUsedTypes MapOrder.insertion [⟨[], lit "User" ++ lit "[]"⟩] [emptyStruct "User"] =
      some [lit "User"] ∧
    (∀ plain : GoString, plain ≠ [] → strings.HasSuffix plain (lit "[]") = false →
      (∃ t ∈ [emptyStruct "User"], t.Name = plain) →
      collectUsedTypes MapOrder.insertion [⟨[], plain⟩] [emptyStruct "User"] = some [plain]) :=
  collectUsedTypes_array_suffix MapOrder.insertion (lit "User") [] [] [] [emptyStruct "User"]
    ⟨emptyStruct "User", by simp, rfl⟩

/-! ## The emitter: one field, one definition, the whole document -/

theorem sprintf_field (name optional typeName : GoString) :
    fmt.Sprintf (lit "  %s%s: %s\n") [name, optional, typeName] =
      lit "  " ++ (name ++ (optional ++ (lit ": " ++ (typeName ++ lit "\n")))) := rfl

theorem sprintf_enum (name values : GoString) :
    fmt.Sprintf (lit "export type %s = %s\n\n") [name, values] =
      lit "export type " ++ (name ++ (lit " = " ++ (values ++ lit "\n\n"))) := rfl

theorem sprintf_interface (name : GoString) :
    fmt.Sprintf (lit "export interface %s \x7b\n") [name] =
      lit "export interface " ++ (name ++ lit " \x7b\n") := rfl

theorem intercalate_cons_append (sep a b : GoString) (es : List GoString) :
    List.intercalate sep ((a ++ sep ++ b) :: es) = a ++ sep ++ List.intercalate sep (b :: es) := by
  cases es with
  | nil => simp [List.intercalate]
  | cons e es => simp [List.intercalate, List.append_assoc]

theorem join_foldl (sep : GoString) :
    ∀ (es : List GoString) (e : GoString),
      es.foldl (fun b s => b ++ sep ++ s) e = List.intercalate sep (e :: es)
  | [], e => by simp [List.intercalate]
  | x :: es, e => by
    rw [List.foldl_cons, join_foldl sep es, intercalate_cons_append]
    simp [List.intercalate, List.append_assoc]

theorem join_eq_intercalate (elems : List GoString) (sep : GoString) :
    strings.Join elems sep = List.intercalate sep elems := by
  match elems with
  | [] => simp [strings.Join, List.intercalate]
  | [e] => simp [strings.Join, List.intercalate]
  | e :: x :: es =>
    unfold strings.Join
    exact join_foldl sep (x :: es) e

theorem emitField_eq (P : GoString → GoString) (content : GoString) (field : Field) :
    emitField P content field = content ++ fieldLine P field := by
  simp [fieldLine, emitField]

theorem foldl_emitField (P : GoString → GoString) :
    ∀ (fields : List Field) (content : GoString),
      fields.foldl (emitField P) content = content ++ (fields.map (fieldLine P)).flatten
  | [], content => by simp
  | f :: fs, content => by
    rw [List.foldl_cons, foldl_emitField P fs, emitField_eq]
    simp [List.append_assoc]

theorem emitType_eq (P : GoString → GoString) (content : GoString) (t : TypeDefinition) :
    emitType P content t = content ++ declText P t := by
  unfold declText emitType
  split
  · simp
  · simp only [foldl_emitField, List.nil_append, List.append_assoc]

theorem buildContent_from (P : GoString → GoString) :
    ∀ (typeDefs : List TypeDefinition) (content : GoString),
      typeDefs.foldl (emitType P) content = content ++ (typeDefs.map (declText P)).flatten
  | [], content => by simp
  | t :: ts, content => by
    rw [List.foldl_cons, buildContent_from P ts, emitType_eq]
    simp [List.append_assoc]

theorem buildContent_eq (P : GoString → GoString) (typeDefs : List TypeDefinition) :
    buildContent P typeDefs = banner ++ (typeDefs.map (declText P)).flatten :=
  buildContent_from P typeDefs banner

theorem banner_eq : banner = lit ("// Auto-generated TypeScript types from Go structs\n" ++
    "// Generated by GoFlux type generation system\n" ++ "// Do not edit manually\n\n") := by
  decide

theorem sorted_unique (l₁ l₂ : List TypeDefinition) (hp : l₁.Perm l₂)
    (h₁ : l₁.Pairwise (fun a b => strLess b.Name a.Name = false))
    (h₂ : l₂.Pairwise (fun a b => strLess b.Name a.Name = false))
    (hn : (l₁.map (fun t => t.Name)).Nodup) : l₁ = l₂ := by
  have strict : ∀ l : List TypeDefinition,
      l.Pairwise (fun a b => strLess b.Name a.Name = false) → (l.map (fun t => t.Name)).Nodup →
      l.Pairwise (fun a b => strLess a.Name b.Name = true) := by
    intro l hl hnd
    have hne : l.Pairwise (fun a b => a.Name ≠ b.Name) := List.pairwise_map.1 hnd
    refine (hl.and hne).imp ?_
    intro a b hab
    cases h : strLess a.Name b.Name with
    | true => rfl
    | false => exact absurd (strLess_connex _ _ h hab.1) hab.2
  have hn₂ : (l₂.map (fun t => t.Name)).Nodup := (hp.map _).nodup_iff.1 hn
  haveI : IsAntisymm TypeDefinition (fun a b => strLess a.Name b.Name = true) :=
    ⟨fun a b hab hba => by rw [strLess_asymm _ _ hab] at hba; cases hba⟩
  exact List.eq_of_perm_of_sorted hp (strict l₁ h₁ hn) (strict l₂ h₂ hn₂)

theorem generate_writes_document (fs : FileSystem) (s : SliceSorter) (P : GoString → GoString)
    (typeDefs : List TypeDefinition) (hdir : fs.MkdirAll (lit "frontend/src/types") = none) :
    (GenerateTypeScriptTypes fs s P typeDefs).writes =
      [(lit "frontend/src/types/generated.d.ts", document s P typeDefs)] := by
  have h1 : filepath.Join [lit "frontend", lit "src", lit "types"] = lit "frontend/src/types" := by
    decide
  have h2 : filepath.Join [lit "frontend/src/types", lit "generated.d.ts"] =
      lit "frontend/src/types/generated.d.ts" := by decide
  unfold GenerateTypeScriptTypes
  simp only [h1, hdir, h2]
  split <;> rfl

/-! ## Claims on GenerateTypeScriptTypes -/

/-- C6: the document is the fixed three-line banner followed by the declarations of a
rearrangement of the input list (one declaration per input definition) in which no
definition is followed by one of smaller `Name`. -/
theorem document_banner_then_sorted_declarations (s : SliceSorter) (P : GoString → GoString)
    (typeDefs : List TypeDefinition) :
    ∃ ds : List TypeDefinition, ds.Perm typeDefs ∧
      ds.Pairwise (fun a b => strLess b.Name a.Name = false) ∧
      document s P typeDefs =
        lit ("// Auto-generated TypeScript types from Go structs\n" ++
          "// Generated by GoFlux type generation system\n" ++ "// Do not edit manually\n\n")
        ++ (ds.map (declText P)).flatten :=
  ⟨s.sort typeDefs, s.perm typeDefs, s.ordered typeDefs, by
    rw [← banner_eq]; exact buildContent_eq P (s.sort typeDefs)⟩

set_option maxRecDepth 100000 in
/-- C6 at definitions named `B`, `A`, `C`: the declarations come out in the order
`A`, `B`, `C` after the banner. -/
theorem document_banner_then_sorted_declarations_witness :
    document SliceSorter.insertion (fun n => n)
        [emptyStruct "B", emptyStruct "A", emptyStruct "C"] =
      lit ("// Auto-generated TypeScript types from Go structs\n" ++
        "// Generated by GoFlux type generation system\n" ++ "// Do not edit manually\n\n" ++
        "export interface A \x7b\n\x7d\n\n" ++ "export interface B \x7b\n\x7d\n\n" ++
        "export interface C \x7b\n\x7d\n\n") := by
  obtain ⟨ds, hp, ho, hdoc⟩ := document_banner_then_sorted_declarations SliceSorter.insertion
    (fun n => n) [emptyStruct "B", emptyStruct "A", emptyStruct "C"]
  have hperm : ds.Perm [emptyStruct "A", emptyStruct "B", emptyStruct "C"] :=
    hp.trans (List.Perm.swap _ _ _)
  have hn : (ds.map (fun t => t.Name)).Nodup :=
    ((hperm.map _).nodup_iff).2 (by decide)
  have hds := sorted_unique ds _ hperm ho (by decide) hn
  rw [hdoc, hds]
  rfl

/-- C7: two input lists that are rearrangements of each other and carry pairwise distinct
names yield the same document text, for every name processor. -/
theorem document_order_independent (s : SliceSorter) (P : GoString → GoString)
    (l₁ l₂ : List TypeDefinition) (hperm : l₁.Perm l₂)
    (hnames : (l₁.map (fun t => t.Name)).Nodup) :
    document s P l₁ = document s P l₂ := by
  unfold document
  have hp : (s.sort l₁).Perm (s.sort l₂) :=
    ((s.perm l₁).trans hperm).trans (s.perm l₂).symm
  have hn : ((s.sort l₁).map (fun t => t.Name)).Nodup :=
    (((s.perm l₁).map _).nodup_iff).2 hnames
  rw [sorted_unique _ _ hp (s.ordered l₁) (s.ordered l₂) hn]

/-- C7 at the lists `[B, A]` and `[A, B]`. -/
theorem document_order_independent_witness :
    document SliceSorter.insertion (fun n => n) [emptyStruct "B", emptyStruct "A"] =
      document SliceSorter.insertion (fun n => n) [emptyStruct "A", emptyStruct "B"] :=
  document_order_independent SliceSorter.insertion (fun n => n)
    [emptyStruct "B", emptyStruct "A"] [emptyStruct "A", emptyStruct "B"]
    (List.Perm.swap _ _ _) (by decide)

/-- C8: for a definition with `IsEnum` set, the loop body appends exactly
`export type N = ` followed by the values joined by ` | ` in the order given and two
newlines, whatever the `Fields` are; a list holding that definition alone yields the
banner followed by that text. -/
theorem emitType_enum (s : SliceSorter) (P : GoString → GoString) (content : GoString)
    (t : TypeDefinition) (henum : t.IsEnum = true) :
    emitType P content t =
      content ++ (lit "export type " ++ t.Name ++ lit " = " ++
        List.intercalate (lit " | ") t.EnumValues ++ lit "\n\n") ∧
    document s P [t] =
      banner ++ (lit "export type " ++ t.Name ++ lit " = " ++
        List.intercalate (lit " | ") t.EnumValues ++ lit "\n\n") := by
  have h : ∀ c, emitType P c t =
      c ++ (lit "export type " ++ t.Name ++ lit " = " ++
        List.intercalate (lit " | ") t.EnumValues ++ lit "\n\n") := by
    intro c
    unfold emitType
    rw [if_pos henum, sprintf_enum, join_eq_intercalate]
    simp only [List.append_assoc]
  refine ⟨h content, ?_⟩
  unfold document buildContent
  rw [List.perm_singleton.1 (s.perm [t])]
  exact h banner

/-- C8 at `Status`: the three values appear in the order given. -/
theorem emitType_enum_witness :
    emitType (fun n => n) [] statusEnum =
      lit "export type Status = active | paused | done\n\n" :=
  (emitType_enum SliceSorter.insertion (fun n => n) [] statusEnum rfl).1.trans (by decide)

/-- C9: the member name of a field line is the processed `JSONTag` when the tag is
non-empty and the processed `Name` when it is empty, the processor being applied once. -/
theorem emitField_serialization_key_precedence (P : GoString → GoString) (content : GoString)
    (field : Field) :
    (field.JSONTag ≠ [] →
      emitField P content field =
        content ++ (lit "  " ++ P field.JSONTag ++ (if field.Optional then lit "?" else []) ++
          lit ": " ++ field.TypeName ++ lit "\n")) ∧
    (field.JSONTag = [] →
      emitField P content field =
        content ++ (lit "  " ++ P field.Name ++ (if field.Optional then lit "?" else []) ++
          lit ": " ++ field.TypeName ++ lit "\n")) := by
  have hopt : (if field.Optional then lit "?" else lit "") =
      (if field.Optional then lit "?" else []) := rfl
  constructor
  · intro h
    unfold emitField
    simp only [if_neg h, sprintf_field, hopt, List.append_assoc]
  · intro h
    unfold emitField
    simp only [if_pos h, sprintf_field, hopt, List.append_assoc]

/-- C9 at `UserId` with key `user_id` and a processor that appends `!`: the member is the
processed key, processed once. -/
theorem emitField_serialization_key_precedence_witness :
    emitField (fun n => n ++ lit "!") [] userIdField = lit "  user_id!: number\n" :=
  ((emitField_serialization_key_precedence (fun n => n ++ lit "!") [] userIdField).1
    (by decide)).trans (by decide)

/-- C10: for a definition with `IsEnum` clear, the loop body appends exactly the line
`export interface N {`, one line per field in the order given, and the closing `}`
with an empty line; each field line is two spaces, the processed member name, `?` exactly
when `Optional` is set, `: `, the `TypeName` as it is, and a newline. -/
theorem emitType_struct (P : GoString → GoString) (content : GoString) (t : TypeDefinition)
    (hstruct : t.IsEnum = false) :
    emitType P content t =
      content ++ (lit "export interface " ++ t.Name ++ lit " \x7b\n" ++
        (t.Fields.map (fun f =>
          lit "  " ++ (if f.JSONTag = [] then P f.Name else P f.JSONTag) ++
            (if f.Optional = true then lit "?" else []) ++ lit ": " ++ f.TypeName ++
            lit "\n")).flatten ++
        lit "\x7d\n\n") := by
  have hline : fieldLine P = fun f =>
      lit "  " ++ (if f.JSONTag = [] then P f.Name else P f.JSONTag) ++
        (if f.Optional = true then lit "?" else []) ++ lit ": " ++ f.TypeName ++ lit "\n" := by
    funext f
    have hopt : (if f.Optional then lit "?" else lit "") =
        (if f.Optional then lit "?" else []) := rfl
    unfold fieldLine emitField
    simp only [sprintf_field, hopt, List.nil_append, List.append_assoc]
  unfold emitType
  simp only [hstruct, Bool.false_eq_true, if_false, sprintf_interface, foldl_emitField, hline,
    List.append_assoc]

/-- C10 at `User` with the optional field `Email` and a processor that appends `!`. -/
theorem emitType_struct_witness :
    emitType (fun n => n ++ lit "!") [] userStruct =
      lit "export interface User \x7b\n  Email!?: string\n\x7d\n\n" :=
  (emitType_struct (fun n => n ++ lit "!") [] userStruct rfl).trans (by decide)

/-! ## What a request type and a route contribute -/

theorem wrapperStep_between (usedTypes : List GoString) (requestType marker delim : GoString)
    (hc : strings.Contains requestType marker = true) :
    wrapperStep usedTypes requestType marker delim (marker.length : Int) =
      some (if strings.Index
            (requestType.drop ((strings.Index requestType marker).toNat + marker.length))
            delim > 0 then
          mapSet usedTypes
            ((requestType.drop ((strings.Index requestType marker).toNat + marker.length)).take
              (strings.Index
                (requestType.drop ((strings.Index requestType marker).toNat + marker.length))
                delim).toNat)
        else usedTypes) := by
  obtain ⟨k, hk⟩ := (contains_iff marker requestType).1 hc
  rw [wrapperStep_some _ _ _ _ k hk, index_of_some _ _ k hk, Int.toNat_ofNat]
  cases he : firstOcc delim (requestType.drop (k + marker.length)) with
  | none => rw [index_of_none _ _ he]; simp
  | some e =>
    rw [index_of_some _ _ e he]
    cases e with
    | zero => simp
    | succ e =>
      have hpos : ((e + 1 : Nat) : Int) > 0 := by omega
      rw [if_pos hpos, Int.toNat_ofNat]
      simp only
      rw [List.drop_take]
      congr 3
      omega

theorem between_ne_nil (rest delim : GoString) (h : strings.Index rest delim > 0) :
    rest.take (strings.Index rest delim).toNat ≠ [] := by
  cases he : firstOcc delim rest with
  | none => rw [index_of_none _ _ he] at h; omega
  | some e =>
    have hb := firstOcc_bound delim rest e he
    rw [index_of_some _ _ e he] at h ⊢
    rw [Int.toNat_ofNat]
    intro hnil
    rcases List.take_eq_nil_iff.1 hnil with h0 | h0
    · omega
    · rw [h0] at hb
      simp only [List.length_nil] at hb
      omega

theorem requestTypeStep_uniform (requestType : GoString) (hne : requestType ≠ []) :
    (∀ m, requestTypeStep m requestType = some m) ∨
      ∃ k, k ≠ [] ∧ ∀ m, requestTypeStep m requestType = some (mapSet m k) := by
  have hw : ∀ marker delim : GoString, strings.Contains requestType marker = true →
      (∀ m, wrapperStep m requestType marker delim (marker.length : Int) = some m) ∨
      ∃ k, k ≠ [] ∧
        ∀ m, wrapperStep m requestType marker delim (marker.length : Int) =
          some (mapSet m k) := by
    intro marker delim hc
    by_cases hpos : strings.Index
        (requestType.drop ((strings.Index requestType marker).toNat + marker.length)) delim > 0
    · refine Or.inr ⟨_, between_ne_nil _ delim hpos, fun m => ?_⟩
      rw [wrapperStep_between m requestType marker delim hc, if_pos hpos]
    · refine Or.inl (fun m => ?_)
      rw [wrapperStep_between m requestType marker delim hc, if_neg hpos]
  by_cases h1 : strings.Contains requestType (lit "Omit<") = true
  · rcases hw (lit "Omit<") (lit ",") h1 with h | ⟨k, hk, h⟩
    · exact Or.inl (fun m => by rw [requestTypeStep_eq, if_pos h1]; exact h m)
    · exact Or.inr ⟨k, hk, fun m => by rw [requestTypeStep_eq, if_pos h1]; exact h m⟩
  · by_cases h2 : strings.Contains requestType (lit "Partial<") = true
    · rcases hw (lit "Partial<") (lit ">") h2 with h | ⟨k, hk, h⟩
      · exact Or.inl (fun m => by rw [requestTypeStep_eq, if_neg h1, if_pos h2]; exact h m)
      · exact Or.inr ⟨k, hk, fun m => by
          rw [requestTypeStep_eq, if_neg h1, if_pos h2]; exact h m⟩
    · exact Or.inr ⟨requestType, hne, fun m => by
        rw [requestTypeStep_eq, if_neg h1, if_neg h2]⟩

theorem mem_foldl_mapSet (x : GoString) :
    ∀ (ks m : List GoString), x ∈ ks.foldl mapSet m ↔ x ∈ m ∨ x ∈ ks
  | [], m => by simp
  | k :: ks, m => by
    rw [List.foldl_cons, mem_foldl_mapSet x ks, mem_mapSet, List.mem_cons]
    tauto

theorem routeStep_keys (route : APIRoute) :
    ∃ reqKeys : List GoString, (∀ k ∈ reqKeys, k ≠ []) ∧
      ∀ m, routeStep m route =
        some ((reqKeys ++ (if route.ResponseType ≠ [] then
          [strings.TrimSuffix route.ResponseType (lit "[]")] else [])).foldl mapSet m) := by
  have hresp : ∀ m : List GoString,
      (if route.ResponseType ≠ [] then responseTypeStep m route.ResponseType else m) =
        (if route.ResponseType ≠ [] then
          [strings.TrimSuffix route.ResponseType (lit "[]")] else []).foldl mapSet m := by
    intro m
    split
    · rw [responseTypeStep_eq]; rfl
    · rfl
  by_cases hne : route.RequestType = []
  · refine ⟨[], by simp, fun m => ?_⟩
    rw [routeStep_eq, if_neg (by simp [hne]), Option.some_bind, hresp, List.nil_append]
  · rcases requestTypeStep_uniform route.RequestType hne with h | ⟨k, hk, h⟩
    · refine ⟨[], by simp, fun m => ?_⟩
      rw [routeStep_eq, if_pos hne, h, Option.some_bind, hresp, List.nil_append]
    · refine ⟨[k], by simpa using hk, fun m => ?_⟩
      rw [routeStep_eq, if_pos hne, h, Option.some_bind, hresp]
      rfl

theorem routeStep_mem (m : List GoString) (route : APIRoute) :
    ∃ m1, routeStep m route = some m1 ∧
      ∀ x, x ∈ m1 ↔ x ∈ m ∨ x ∈ routeKeys route := by
  obtain ⟨reqKeys, _, h⟩ := routeStep_keys route
  refine ⟨_, h m, fun x => ?_⟩
  unfold routeKeys
  rw [h [], Option.getD_some, mem_foldl_mapSet, mem_foldl_mapSet]
  simp

theorem routesLoop_mem : ∀ (routes : List APIRoute) (m : List GoString),
    ∃ mF, routesLoop routes m = some mF ∧
      ∀ x, x ∈ mF ↔ x ∈ m ∨ ∃ r ∈ routes, x ∈ routeKeys r
  | [], m => ⟨m, rfl, fun x => by simp⟩
  | route :: rest, m => by
    obtain ⟨m1, hm1, hmem1⟩ := routeStep_mem m route
    obtain ⟨mF, hmF, hmemF⟩ := routesLoop_mem rest m1
    refine ⟨mF, by simp only [routesLoop, hm1, hmF], fun x => ?_⟩
    rw [hmemF, hmem1]
    simp only [List.mem_cons, exists_eq_or_imp]
    tauto

theorem ascending_ext (l₁ l₂ : List GoString)
    (h₁ : l₁.Pairwise (fun a b => strLess a b = true))
    (h₂ : l₂.Pairwise (fun a b => strLess a b = true))
    (hmem : ∀ x, x ∈ l₁ ↔ x ∈ l₂) : l₁ = l₂ := by
  have nd : ∀ l : List GoString, l.Pairwise (fun a b => strLess a b = true) → l.Nodup :=
    fun l hl => hl.imp (fun {a b} h e => by rw [e, strLess_irrefl] at h; cases h)
  haveI : IsAntisymm GoString (fun a b => strLess a b = true) :=
    ⟨fun a b hab hba => by rw [strLess_asymm _ _ hab] at hba; cases hba⟩
  exact List.eq_of_perm_of_sorted ((List.perm_ext_iff_of_nodup (nd l₁ h₁) (nd l₂ h₂)).2 hmem)
    h₁ h₂

theorem collectUsedTypes_char (o : MapOrder) (routes : List APIRoute)
    (typeDefs : List TypeDefinition) :
    ∃ res, collectUsedTypes o routes typeDefs = some res ∧
      res.Pairwise (fun a b => strLess a b = true) ∧
      ∀ x, x ∈ res ↔ (∃ r ∈ routes, x ∈ routeKeys r) ∧ ∃ t ∈ typeDefs, t.Name = x := by
  obtain ⟨m, hm, _, hnd⟩ := routesLoop_total routes []
  obtain ⟨m', hm', hmem⟩ := routesLoop_mem routes []
  rw [hm] at hm'
  cases hm'
  refine ⟨_, collectUsedTypes_eq o routes typeDefs m hm,
    strings_ascending _ (nodup_result o typeDefs m (hnd List.nodup_nil)), fun x => ?_⟩
  rw [mem_result, hmem]
  simp

theorem collectUsedTypes_single_none (o : MapOrder) (route : APIRoute)
    (typeDefs : List TypeDefinition) (hstep : routeStep [] route = some []) :
    collectUsedTypes o [route] typeDefs = some [] := by
  have hm : routesLoop [route] [] = some [] := by simp only [routesLoop, hstep]
  rw [collectUsedTypes_eq o [route] typeDefs [] hm, List.perm_nil.1 (o.perm [])]
  rfl

theorem collectUsedTypes_single_undefined (o : MapOrder) (route : APIRoute)
    (typeDefs : List TypeDefinition) (k : GoString) (hstep : routeStep [] route = some [k])
    (hdef : isDefined typeDefs k = false) :
    collectUsedTypes o [route] typeDefs = some [] := by
  have hm : routesLoop [route] [] = some [k] := by simp only [routesLoop, hstep]
  rw [collectUsedTypes_eq o [route] typeDefs [k] hm, List.perm_singleton.1 (o.perm [k])]
  simp [List.filter_cons, hdef, sort.Strings, sort.insertionSort]

theorem routeStep_request_only (m : List GoString) (requestType : GoString) :
    routeStep m ⟨requestType, []⟩ =
      if requestType ≠ [] then requestTypeStep m requestType else some m := by
  rw [routeStep_eq]
  simp only [ne_eq, not_true_eq_false, if_false]
  split
  · cases requestTypeStep m requestType <;> rfl
  · rfl

theorem ne_nil_of_contains (s substr : GoString) (hsub : substr ≠ [])
    (h : strings.Contains s substr = true) : s ≠ [] := by
  intro hs
  subst hs
  obtain ⟨k, hk⟩ := (contains_iff substr []).1 h
  simp [firstOcc, hsub] at hk

theorem index_of_contains_false (s substr : GoString) (h : strings.Contains s substr = false) :
    strings.Index s substr = -1 :=
  index_of_none _ _ ((contains_false_iff _ _).1 h)

theorem trimSuffix_eq_nil_iff (responseType : GoString) (hne : responseType ≠ []) :
    strings.TrimSuffix responseType (lit "[]") = [] ↔ responseType = lit "[]" := by
  constructor
  · intro h
    unfold strings.TrimSuffix strings.HasSuffix at h
    split at h
    · rename_i hs
      obtain ⟨t, ht⟩ := List.isSuffixOf_iff_suffix.1 hs
      rcases List.take_eq_nil_iff.1 h with h0 | h0
      · have hlen := congrArg List.length ht
        rw [List.length_append] at hlen
        have ht0 : t = [] := List.length_eq_zero.1 (by omega)
        rw [ht0, List.nil_append] at ht
        exact ht.symm
      · exact absurd h0 hne
    · exact absurd h hne
  · intro h
    subst h
    decide

theorem nil_mem_routeKeys (route : APIRoute) :
    [] ∈ routeKeys route ↔ route.ResponseType = lit "[]" := by
  obtain ⟨reqKeys, hreq, h⟩ := routeStep_keys route
  unfold routeKeys
  rw [h [], Option.getD_some, mem_foldl_mapSet, List.mem_append]
  constructor
  · rintro (h0 | h0 | h0)
    · cases h0
    · exact absurd rfl (hreq [] h0)
    · split at h0
      · rename_i hne
        rw [List.mem_singleton] at h0
        exact (trimSuffix_eq_nil_iff _ hne).1 h0.symm
      · cases h0
  · intro hr
    have hne : route.ResponseType ≠ [] := by rw [hr]; decide
    refine Or.inr (Or.inr ?_)
    rw [if_pos hne, List.mem_singleton]
    exact ((trimSuffix_eq_nil_iff _ hne).2 hr).symm

theorem wrapper_offsets_in_bounds (requestType marker delim : GoString)
    (hc : strings.Contains requestType marker = true) :
    ∃ tail, sliceFrom requestType (strings.Index requestType marker + marker.length) = some tail ∧
      (strings.Index tail delim > 0 →
        ∃ name, slice requestType (strings.Index requestType marker + marker.length)
          (strings.Index requestType marker + marker.length + strings.Index tail delim) =
            some name) := by
  obtain ⟨k, hk⟩ := (contains_iff marker requestType).1 hc
  have hb := firstOcc_bound marker requestType k hk
  rw [index_of_some _ _ k hk]
  have hstart : ((k : Int) + (marker.length : Int)) = ((k + marker.length : Nat) : Int) := by
    simp
  rw [hstart, sliceFrom_ok _ _ hb]
  refine ⟨_, rfl, fun hpos => ?_⟩
  cases he : firstOcc delim (requestType.drop (k + marker.length)) with
  | none => rw [index_of_none _ _ he] at hpos; omega
  | some e =>
    have hb2 := firstOcc_bound delim _ _ he
    simp only [List.length_drop] at hb2
    rw [index_of_some _ _ e he]
    have hend : ((k + marker.length : Nat) : Int) + (e : Int) =
        ((k + marker.length + e : Nat) : Int) := by simp
    rw [hend, slice_ok _ _ _ (by omega) (by omega)]
    exact ⟨_, rfl⟩

/-! ## Further claims on collectUsedTypes -/

/-- C11, refuted as stated: `Omit<User, 'id'` contains the marker `Omit<` and no `>`, and
the name `User` is extracted from it all the same. -/
theorem collectUsedTypes_unclosed_omit :
    strings.Contains (lit "Omit<User, 'id'") (lit "Omit<") = true ∧
    strings.Contains (lit "Omit<User, 'id'") (lit ">") = false ∧
    collectUsedTypes MapOrder.insertion [⟨lit "Omit<User, 'id'", []⟩] [emptyStruct "User"] =
      some [lit "User"] := by
  decide

/-- C11, amended: when the text after the first `Omit<` holds no comma, or when there is no
`Omit<` and the text after the first `Partial<` holds no `>`, the request type leaves the
map as it is, and the route alone, with an empty `ResponseType`, yields the empty list. -/
theorem collectUsedTypes_malformed_wrapper (o : MapOrder) (requestType : GoString)
    (typeDefs : List TypeDefinition) (usedTypes : List GoString)
    (h : (strings.Contains requestType (lit "Omit<") = true ∧
          strings.Contains
            (requestType.drop ((strings.Index requestType (lit "Omit<")).toNat + 5))
            (lit ",") = false) ∨
        (strings.Contains requestType (lit "Omit<") = false ∧
          strings.Contains requestType (lit "Partial<") = true ∧
          strings.Contains
            (requestType.drop ((strings.Index requestType (lit "Partial<")).toNat + 8))
            (lit ">") = false)) :
    requestTypeStep usedTypes requestType = some usedTypes ∧
    collectUsedTypes o [⟨requestType, []⟩] typeDefs = some [] := by
  have hstep : ∀ m, requestTypeStep m requestType = some m := by
    intro m
    rcases h with ⟨h1, h2⟩ | ⟨h1, h2, h3⟩
    · rw [requestTypeStep_eq, if_pos h1]
      have hw := wrapperStep_between m requestType (lit "Omit<") (lit ",") h1
      rw [show ((lit "Omit<").length) = 5 from rfl, index_of_contains_false _ _ h2] at hw
      exact hw
    · rw [requestTypeStep_eq, if_neg (by simp [h1]), if_pos h2]
      have hw := wrapperStep_between m requestType (lit "Partial<") (lit ">") h2
      rw [show ((lit "Partial<").length) = 8 from rfl, index_of_contains_false _ _ h3] at hw
      exact hw
  refine ⟨hstep usedTypes, collectUsedTypes_single_none o _ typeDefs ?_⟩
  rw [routeStep_request_only]
  split
  · exact hstep []
  · rfl

/-- C11, amended, at `Partial<User` with a definition named `User`. -/
theorem collectUsedTypes_malformed_wrapper_witness :
    requestTypeStep [lit "Post"] (lit "Partial<User") = some [lit "Post"] ∧
    collectUsedTypes MapOrder.insertion [⟨lit "Partial<User", []⟩] [emptyStruct "User"] =
      some [] :=
  collectUsedTypes_malformed_wrapper MapOrder.insertion (lit "Partial<User")
    [emptyStruct "User"] [lit "Post"] (Or.inr ⟨by decide, by decide, by decide⟩)

/-- C15: a non-empty `RequestType` containing neither `Omit<` nor `Partial<` is itself the
referenced name: a defined one is in the result whatever the other routes are, and the
route alone, with an empty `ResponseType`, yields exactly that name, no `[]` removed. -/
theorem collectUsedTypes_bare_request (o : MapOrder) (name responseType : GoString)
    (pre post : List APIRoute) (typeDefs : List TypeDefinition) (hne : name ≠ [])
    (homit : strings.Contains name (lit "Omit<") = false)
    (hpart : strings.Contains name (lit "Partial<") = false)
    (hdef : ∃ t ∈ typeDefs, t.Name = name) :
    (∃ res, collectUsedTypes o (pre ++ ⟨name, responseType⟩ :: post) typeDefs = some res ∧
      name ∈ res) ∧
    collectUsedTypes o [⟨name, []⟩] typeDefs = some [name] := by
  have hreq : ∀ m, requestTypeStep m name = some (mapSet m name) := by
    intro m
    rw [requestTypeStep_eq, if_neg (by simp [homit]), if_neg (by simp [hpart])]
  constructor
  · apply collectUsedTypes_mem o _ typeDefs name _ hdef
    apply routesLoop_mem_of_step
    intro m
    exact routeStep_of_request m ⟨name, responseType⟩ name hne hreq
  · apply collectUsedTypes_single o _ typeDefs name _ hdef
    rw [routeStep_request_only, if_pos hne, hreq]
    rfl

/-- C15 at `User[]`, with definitions named `User[]` and `User`: the name is `User[]`. -/
theorem collectUsedTypes_bare_request_witness :
    (∃ res, collectUsedTypes MapOrder.insertion ([] ++ ⟨lit "User[]", []⟩ :: [])
        [emptyStruct "User[]", emptyStruct "User"] = some res ∧ lit "User[]" ∈ res) ∧
    collectUsedTypes MapOrder.insertion [⟨lit "User[]", []⟩]
      [emptyStruct "User[]", emptyStruct "User"] = some [lit "User[]"] :=
  collectUsedTypes_bare_request MapOrder.insertion (lit "User[]") [] [] []
    [emptyStruct "User[]", emptyStruct "User"] (by decide) (by decide) (by decide)
    ⟨emptyStruct "User[]", by simp, rfl⟩

/-- C16: `collectUsedTypes` returns a list for every input; no request type makes the
request branch panic; and whenever a marker occurs, both slice expressions of its branch
are within the bounds of the string. -/
theorem collectUsedTypes_never_panics (o : MapOrder) (routes : List APIRoute)
    (typeDefs : List TypeDefinition) :
    (∃ res, collectUsedTypes o routes typeDefs = some res) ∧
    (∀ (usedTypes : List GoString) (requestType : GoString),
      ∃ m, requestTypeStep usedTypes requestType = some m) ∧
    (∀ requestType marker delim : GoString, strings.Contains requestType marker = true →
      ∃ tail,
        sliceFrom requestType (strings.Index requestType marker + marker.length) = some tail ∧
        (strings.Index tail delim > 0 →
          ∃ name, slice requestType (strings.Index requestType marker + marker.length)
            (strings.Index requestType marker + marker.length + strings.Index tail delim) =
              some name)) := by
  refine ⟨?_, ?_, wrapper_offsets_in_bounds⟩
  · obtain ⟨m, hm, _, _⟩ := routesLoop_total routes []
    exact ⟨_, collectUsedTypes_eq o routes typeDefs m hm⟩
  · intro usedTypes requestType
    obtain ⟨m, hm, _⟩ := requestTypeStep_total usedTypes requestType
    exact ⟨m, hm⟩

/-- C17: rearranging the routes, rearranging the definitions and changing the order in
which the map is iterated all leave the result of `collectUsedTypes` the same. -/
theorem collectUsedTypes_order_irrelevant (o o' : MapOrder) (routes routes' : List APIRoute)
    (typeDefs typeDefs' : List TypeDefinition) (hroutes : routes.Perm routes')
    (hdefs : typeDefs.Perm typeDefs') :
    collectUsedTypes o routes typeDefs = collectUsedTypes o' routes' typeDefs' := by
  obtain ⟨res, hres, hasc, hmem⟩ := collectUsedTypes_char o routes typeDefs
  obtain ⟨res', hres', hasc', hmem'⟩ := collectUsedTypes_char o' routes' typeDefs'
  rw [hres, hres']
  congr 1
  apply ascending_ext res res' hasc hasc'
  intro x
  rw [hmem, hmem']
  constructor
  · rintro ⟨⟨r, hr, hx⟩, t, ht, hn⟩
    exact ⟨⟨r, hroutes.mem_iff.1 hr, hx⟩, t, hdefs.mem_iff.1 ht, hn⟩
  · rintro ⟨⟨r, hr, hx⟩, t, ht, hn⟩
    exact ⟨⟨r, hroutes.mem_iff.2 hr, hx⟩, t, hdefs.mem_iff.2 ht, hn⟩

/-- C17 at two routes and two definitions, each list swapped, and two iteration orders. -/
theorem collectUsedTypes_order_irrelevant_witness :
    collectUsedTypes MapOrder.insertion
      [⟨lit "Partial<User>", lit "User"⟩, ⟨[], lit "Post[]"⟩]
      [emptyStruct "User", emptyStruct "Post"] =
    collectUsedTypes MapOrder.reversed
      [⟨[], lit "Post[]"⟩, ⟨lit "Partial<User>", lit "User"⟩]
      [emptyStruct "Post", emptyStruct "User"] :=
  collectUsedTypes_order_irrelevant MapOrder.insertion MapOrder.reversed _ _ _ _
    (List.Perm.swap _ _ _) (List.Perm.swap _ _ _)

/-- C18, where the code departs from the claim: a route whose `ResponseType` is `[]` puts
the empty name into the map, and with a definition of empty `Name` the result is the
list holding the empty string. In general the empty string is in the result exactly when
some `ResponseType` is `[]` and some definition has the empty `Name`. -/
theorem collectUsedTypes_empty_name (o : MapOrder) (routes : List APIRoute)
    (typeDefs : List TypeDefinition) :
    routeStep [] ⟨[], lit "[]"⟩ = some [[]] ∧
    collectUsedTypes o [⟨[], lit "[]"⟩] [⟨[], false, [], []⟩] = some [[]] ∧
    ∃ res, collectUsedTypes o routes typeDefs = some res ∧
      ([] ∈ res ↔ (∃ r ∈ routes, r.ResponseType = lit "[]") ∧ ∃ t ∈ typeDefs, t.Name = []) := by
  refine ⟨by decide, ?_, ?_⟩
  · exact collectUsedTypes_single o _ _ [] (by decide)
      ⟨⟨[], false, [], []⟩, List.mem_singleton.2 rfl, rfl⟩
  · obtain ⟨res, hres, _, hmem⟩ := collectUsedTypes_char o routes typeDefs
    refine ⟨res, hres, ?_⟩
    rw [hmem]
    simp only [nil_mem_routeKeys]

/-- C19: when the request type contains `Omit<`, the request branch adds the text between
the first `Omit<` and the first comma after it, and nothing when there is no such comma or
that text is empty, whether `Partial<` occurs or not; the route alone, with an empty
`ResponseType`, yields that text when it is defined and nothing otherwise. -/
theorem requestTypeStep_omit_precedence (o : MapOrder) (usedTypes : List GoString)
    (requestType after : GoString) (typeDefs : List TypeDefinition)
    (homit : strings.Contains requestType (lit "Omit<") = true)
    (hafter : after = requestType.drop ((strings.Index requestType (lit "Omit<")).toNat + 5)) :
    requestTypeStep usedTypes requestType =
      some (if strings.Index after (lit ",") > 0 then
          mapSet usedTypes (after.take (strings.Index after (lit ",")).toNat)
        else usedTypes) ∧
    collectUsedTypes o [⟨requestType, []⟩] typeDefs =
      some (if strings.Index after (lit ",") > 0 ∧
            isDefined typeDefs (after.take (strings.Index after (lit ",")).toNat) = true then
          [after.take (strings.Index after (lit ",")).toNat]
        else []) := by
  have hstep : ∀ m, requestTypeStep m requestType =
      some (if strings.Index after (lit ",") > 0 then
          mapSet m (after.take (strings.Index after (lit ",")).toNat)
        else m) := by
    intro m
    rw [requestTypeStep_eq, if_pos homit, hafter]
    exact wrapperStep_between m requestType (lit "Omit<") (lit ",") homit
  refine ⟨hstep usedTypes, ?_⟩
  have hne : requestType ≠ [] := ne_nil_of_contains _ _ (by decide) homit
  have hroute : routeStep [] ⟨requestType, []⟩ =
      some (if strings.Index after (lit ",") > 0 then
          [after.take (strings.Index after (lit ",")).toNat]
        else []) := by
    rw [routeStep_request_only, if_pos hne, hstep]
    rfl
  by_cases hpos : strings.Index after (lit ",") > 0
  · rw [if_pos hpos] at hroute
    cases hd : isDefined typeDefs (after.take (strings.Index after (lit ",")).toNat) with
    | true =>
      rw [if_pos ⟨hpos, rfl⟩]
      exact collectUsedTypes_single o _ typeDefs _ hroute ((isDefined_iff _ _).1 hd)
    | false =>
      rw [if_neg (by simp)]
      exact collectUsedTypes_single_undefined o _ typeDefs _ hroute hd
  · rw [if_neg hpos] at hroute
    rw [if_neg (fun h => hpos h.1)]
    exact collectUsedTypes_single_none o _ typeDefs hroute

/-- C19 at `Partial<Omit<User, 'id'>>`, `Omit<Partial<User>, 'id'>` and `Omit<User>`. -/
theorem requestTypeStep_omit_precedence_witness :
    requestTypeStep [] (lit "Partial<Omit<User, 'id'>>") = some [lit "User"] ∧
    requestTypeStep [] (lit "Omit<Partial<User>, 'id'>") = some [lit "Partial<User>"] ∧
    requestTypeStep [] (lit "Omit<User>") = some [] ∧
    collectUsedTypes MapOrder.insertion [⟨lit "Partial<Omit<User, 'id'>>", []⟩]
      [emptyStruct "User", emptyStruct "Partial<User>"] = some [lit "User"] :=
  ⟨(requestTypeStep_omit_precedence MapOrder.insertion [] (lit "Partial<Omit<User, 'id'>>")
      (lit "User, 'id'>>") [emptyStruct "User", emptyStruct "Partial<User>"] (by decide)
      (by decide)).1.trans (by decide),
    by decide, by decide, by decide⟩

/-! ## Claims on the selector and on the file-system calls -/

/-- C14: `ShouldGenerateTypeScriptTypes` is false exactly on `basic`; it is true on
`basic-ts`, `axios`, `trpc-like`, on the empty string and on every other identifier. -/
theorem shouldGenerate_false_iff_basic (generatorType : GoString) :
    (ShouldGenerateTypeScriptTypes generatorType = false ↔ generatorType = lit "basic") ∧
    (generatorType ≠ lit "basic" → ShouldGenerateTypeScriptTypes generatorType = true) ∧
    ShouldGenerateTypeScriptTypes (lit "basic-ts") = true ∧
    ShouldGenerateTypeScriptTypes (lit "axios") = true ∧
    ShouldGenerateTypeScriptTypes (lit "trpc-like") = true ∧
    ShouldGenerateTypeScriptTypes (lit "") = true := by
  refine ⟨?_, ?_, by decide, by decide, by decide, by decide⟩
  · unfold ShouldGenerateTypeScriptTypes
    by_cases h : generatorType = lit "basic"
    · simp [h]
    · simp only [h, if_false, iff_false]
      split <;> simp
  · intro h
    unfold ShouldGenerateTypeScriptTypes
    rw [if_neg h]
    split <;> rfl

/-- C14 at an identifier no case names. -/
theorem shouldGenerate_false_iff_basic_witness :
    ShouldGenerateTypeScriptTypes (lit "graphql") = true :=
  (shouldGenerate_false_iff_basic (lit "graphql")).2.1 (by decide)

theorem generate_of_dir_error (fs : FileSystem) (s : SliceSorter) (P : GoString → GoString)
    (typeDefs : List TypeDefinition) (e : OSError)
    (hdir : fs.MkdirAll (lit "frontend/src/types") = some e) :
    GenerateTypeScriptTypes fs s P typeDefs = ⟨typeDefs, [], some (GenError.createDir e)⟩ := by
  have h1 : filepath.Join [lit "frontend", lit "src", lit "types"] = lit "frontend/src/types" := by
    decide
  unfold GenerateTypeScriptTypes
  simp only [h1, hdir]

theorem generate_of_dir_ok (fs : FileSystem) (s : SliceSorter) (P : GoString → GoString)
    (typeDefs : List TypeDefinition) (hdir : fs.MkdirAll (lit "frontend/src/types") = none) :
    GenerateTypeScriptTypes fs s P typeDefs =
      ⟨s.sort typeDefs, [(lit "frontend/src/types/generated.d.ts", document s P typeDefs)],
        (fs.WriteFile (lit "frontend/src/types/generated.d.ts") (document s P typeDefs)).map
          GenError.writeFile⟩ := by
  have h1 : filepath.Join [lit "frontend", lit "src", lit "types"] = lit "frontend/src/types" := by
    decide
  have h2 : filepath.Join [lit "frontend/src/types", lit "generated.d.ts"] =
      lit "frontend/src/types/generated.d.ts" := by decide
  unfold GenerateTypeScriptTypes document
  simp only [h1, hdir, h2]
  split
  · rename_i e he; rw [he]; rfl
  · rename_i he; rw [he]; rfl

/-- C13: the returned error is non-nil exactly when the directory cannot be created or
the file cannot be written, and it wraps the cause; when the directory cannot be created
no write is made; otherwise exactly one write is made, of the whole document to
`frontend/src/types/generated.d.ts`. -/
theorem generate_error_reporting (fs : FileSystem) (s : SliceSorter) (P : GoString → GoString)
    (typeDefs : List TypeDefinition) :
    ((GenerateTypeScriptTypes fs s P typeDefs).err ≠ none ↔
      (fs.MkdirAll (lit "frontend/src/types") ≠ none ∨
        fs.WriteFile (lit "frontend/src/types/generated.d.ts") (document s P typeDefs) ≠ none)) ∧
    (∀ e, fs.MkdirAll (lit "frontend/src/types") = some e →
      (GenerateTypeScriptTypes fs s P typeDefs).err = some (GenError.createDir e) ∧
      (GenerateTypeScriptTypes fs s P typeDefs).writes = []) ∧
    (fs.MkdirAll (lit "frontend/src/types") = none →
      (GenerateTypeScriptTypes fs s P typeDefs).writes =
        [(lit "frontend/src/types/generated.d.ts", document s P typeDefs)] ∧
      (GenerateTypeScriptTypes fs s P typeDefs).err =
        (fs.WriteFile (lit "frontend/src/types/generated.d.ts") (document s P typeDefs)).map
          GenError.writeFile) := by
  refine ⟨?_, ?_, ?_⟩
  · cases hdir : fs.MkdirAll (lit "frontend/src/types") with
    | some e => rw [generate_of_dir_error fs s P typeDefs e hdir]; simp
    | none =>
      rw [generate_of_dir_ok fs s P typeDefs hdir]
      cases fs.WriteFile (lit "frontend/src/types/generated.d.ts") (document s P typeDefs) <;>
        simp
  · intro e hdir
    rw [generate_of_dir_error fs s P typeDefs e hdir]
    exact ⟨rfl, rfl⟩
  · intro hdir
    rw [generate_of_dir_ok fs s P typeDefs hdir]
    exact ⟨rfl, rfl⟩

/-- C13 on three file systems: no directory, no write, and all well. -/
theorem generate_error_reporting_witness :
    ((GenerateTypeScriptTypes FileSystem.noDir SliceSorter.insertion (fun n => n)
        [emptyStruct "A"]).err = some (GenError.createDir ⟨lit "permission denied"⟩) ∧
      (GenerateTypeScriptTypes FileSystem.noDir SliceSorter.insertion (fun n => n)
        [emptyStruct "A"]).writes = []) ∧
    (GenerateTypeScriptTypes FileSystem.noWrite SliceSorter.insertion (fun n => n)
        [emptyStruct "A"]).err = some (GenError.writeFile ⟨lit "disk full"⟩) ∧
    (GenerateTypeScriptTypes FileSystem.ok SliceSorter.insertion (fun n => n)
        [emptyStruct "A"]).err = none :=
  ⟨(generate_error_reporting FileSystem.noDir SliceSorter.insertion (fun n => n)
      [emptyStruct "A"]).2.1 ⟨lit "permission denied"⟩ rfl, by decide, by decide⟩

/-- C12, refuted as stated: with the list `[B, A]` and a working file system, no behaviour
of `sort.Slice` leaves the caller's list as it was. -/
theorem generate_reorders_caller_list :
    ¬ ∃ s : SliceSorter,
      (GenerateTypeScriptTypes FileSystem.ok s (fun n => n)
        [emptyStruct "B", emptyStruct "A"]).typeDefs = [emptyStruct "B", emptyStruct "A"] := by
  rintro ⟨s, h⟩
  rw [generate_of_dir_ok FileSystem.ok s _ _ rfl] at h
  have ho := s.ordered [emptyStruct "B", emptyStruct "A"]
  simp only at h
  rw [h] at ho
  have hab := (List.pairwise_cons.1 ho).1 (emptyStruct "A") (by simp)
  exact absurd hab (by decide)

/-- C12, amended: after the call the caller's list is a rearrangement of the list before
the call; when the directory is created it is in non-decreasing order of `Name`; it is
unchanged when the directory cannot be created and when it was strictly ascending by
`Name` already. -/
theorem generate_caller_list (fs : FileSystem) (s : SliceSorter) (P : GoString → GoString)
    (typeDefs : List TypeDefinition) :
    (GenerateTypeScriptTypes fs s P typeDefs).typeDefs.Perm typeDefs ∧
    (fs.MkdirAll (lit "frontend/src/types") = none →
      (GenerateTypeScriptTypes fs s P typeDefs).typeDefs.Pairwise
        (fun a b => strLess b.Name a.Name = false)) ∧
    (fs.MkdirAll (lit "frontend/src/types") ≠ none →
      (GenerateTypeScriptTypes fs s P typeDefs).typeDefs = typeDefs) ∧
    (typeDefs.Pairwise (fun a b => strLess a.Name b.Name = true) →
      (GenerateTypeScriptTypes fs s P typeDefs).typeDefs = typeDefs) := by
  cases hdir : fs.MkdirAll (lit "frontend/src/types") with
  | some e =>
    rw [generate_of_dir_error fs s P typeDefs e hdir]
    refine ⟨List.Perm.refl _, ?_, fun _ => rfl, fun _ => rfl⟩
    intro h
    cases h
  | none =>
    rw [generate_of_dir_ok fs s P typeDefs hdir]
    refine ⟨s.perm typeDefs, fun _ => s.ordered typeDefs, fun h => absurd rfl h, ?_⟩
    intro hasc
    show s.sort typeDefs = typeDefs
    have hord : typeDefs.Pairwise (fun a b => strLess b.Name a.Name = false) :=
      hasc.imp (fun {a b} h => strLess_asymm a.Name b.Name h)
    have hne : typeDefs.Pairwise (fun a b => a.Name ≠ b.Name) :=
      hasc.imp (fun {a b} h e => by rw [e, strLess_irrefl] at h; cases h)
    have hn : ((s.sort typeDefs).map (fun t => t.Name)).Nodup :=
      (((s.perm typeDefs).map _).nodup_iff).2 (List.pairwise_map.2 hne)
    exact sorted_unique _ _ (s.perm typeDefs) (s.ordered typeDefs) hord hn

/-- C12, amended, at `[B, A]`: the caller's list becomes `[A, B]`. -/
theorem generate_caller_list_witness :
    (GenerateTypeScriptTypes FileSystem.ok SliceSorter.insertion (fun n => n)
      [emptyStruct "B", emptyStruct "A"]).typeDefs = [emptyStruct "A", emptyStruct "B"] := by
  have h := generate_caller_list FileSystem.ok SliceSorter.insertion (fun n => n)
    [emptyStruct "B", emptyStruct "A"]
  have hperm := h.1.trans (List.Perm.swap (emptyStruct "A") (emptyStruct "B") [])
  have hn : ((GenerateTypeScriptTypes FileSystem.ok SliceSorter.insertion (fun n => n)
      [emptyStruct "B", emptyStruct "A"]).typeDefs.map (fun t => t.Name)).Nodup :=
    ((hperm.map _).nodup_iff).2 (by decide)
  exact sorted_unique _ _ hperm (h.2.1 rfl) (by decide) hn

/-! ## Sample values -/

example : strings.Index (lit "Omit<User, 'id'>") (lit "Omit<") = 0 := by decide
example : collectUsedTypes MapOrder.insertion [⟨lit "Omit<User, 'id'>", lit "Post[]"⟩]
    [emptyStruct "User", emptyStruct "Post"] = some [lit "Post", lit "User"] := by decide
example (N J : GoString) : fmt.Sprintf (lit "export type %s = %s\n\n") [N, J] =
    lit "export type " ++ (N ++ (lit " = " ++ (J ++ lit "\n\n"))) := by rfl
example (N J : GoString) : fmt.Sprintf (lit "export type %s = %s\n\n") [N, J] =
    lit "export type " ++ N ++ lit " = " ++ J ++ lit "\n\n" := by
  simp only [List.append_assoc]; rfl
example : ShouldGenerateTypeScriptTypes (lit "basic") = false := by decide
example : requestTypeStep [] (lit "Omit<") = some [] := by decide
example : requestTypeStep [] (lit "Partial<") = some [] := by decide
example : requestTypeStep [] (lit "xOmit<,") = some [] := by decide
example : routeStep [] ⟨lit "User[]", lit "[]"⟩ = some [lit "User[]", []] := by decide
example : collectUsedTypes MapOrder.reversed
    [⟨lit "User", lit "Post[]"⟩, ⟨lit "Post", lit "User"⟩, ⟨lit "Date", []⟩]
    [emptyStruct "User", emptyStruct "Post", emptyStruct "User"] =
      some [lit "Post", lit "User"] := by decide
example : filepath.Join [lit "frontend", lit "src", lit "types"] = lit "frontend/src/types" := by decide

end GoFlux
